import Mathlib

/-!
Shallow embedding of the switch-games data pipeline.

The JavaScript sources embedded here:
  * `fetchProductCodesHK.js`  (HK enrichment engine)        → namespace `HK`
  * `unnamed/part_000`        (KR enrichment engine)        → namespace `KR`
  * `fetch_us.js`             (US save step, EU engine)     → namespaces `FetchUS`, `EU`
  * `fetch_hk.js`             (HK save step)                → namespace `FetchHK`
  * `merge_enriched.js`       (cross-region entity merge)   → namespace `ME`

Dynamic JavaScript string fields (which may be absent, `null`, or a string)
are modelled by `JStr`; a JSON object is a structure whose string-valued
fields are `JStr` (`JStr.undef` = key absent, which is also what
`JSON.stringify` produces for an `undefined` property).
-/

set_option linter.unusedVariables false

/-- JS `String.prototype.trim()`: strip whitespace at both ends (character-list
based so that concrete runs reduce in the kernel). -/
def jsTrim (s : String) : String :=
  String.mk (((s.toList.dropWhile Char.isWhitespace).reverse.dropWhile
    Char.isWhitespace).reverse)

/-- JS `toUpperCase()` on the ASCII range. -/
def jsToUpper (s : String) : String := String.mk (s.toList.map Char.toUpper)

/-- JS `toLowerCase()` on the ASCII range. -/
def jsToLower (s : String) : String := String.mk (s.toList.map Char.toLower)

/-- `s.slice(0, n)` (character based). -/
def jsTake (s : String) (n : Nat) : String := String.mk (s.toList.take n)

/-- Drop the first `n` characters. -/
def jsDrop (s : String) (n : Nat) : String := String.mk (s.toList.drop n)

/-- Drop the last `n` characters. -/
def jsDropRight (s : String) (n : Nat) : String :=
  String.mk (s.toList.take (s.toList.length - n))

/-- JS `startsWith`. -/
def jsStartsWith (s p : String) : Bool := List.isPrefixOf p.toList s.toList

/-- JS `endsWith`. -/
def jsEndsWith (s p : String) : Bool := List.isSuffixOf p.toList s.toList


/-- A JavaScript string-ish field value: absent (`undefined`), `null`, or a string. -/
inductive JStr where
  | undef
  | null
  | str (s : String)
deriving DecidableEq, Repr

namespace JStr

/-- JS truthiness of a string-ish value: strings are truthy iff non-empty
(`undefined` and `null` are falsy). -/
def truthy : JStr → Bool
  | .str s => s ≠ ""
  | _ => false

/-- The JS expression `(v ?? "").toString()`: `null`/`undefined` become `""`. -/
def coerce : JStr → String
  | .str s => s
  | _ => ""

/-- JS `a || b` on string-ish values (returns `b`, the last operand, when `a` is falsy). -/
def jsOr (a b : JStr) : JStr := if a.truthy then a else b

/-- JS `a ?? b` on string-ish values (skips only `null`/`undefined`, not `""`). -/
def nullish (a b : JStr) : JStr :=
  match a with
  | .undef => b
  | .null => b
  | .str s => .str s

/-- Trim-nonemptiness: the test `(v ?? '').toString().trim()` is truthy. -/
def trimNE (v : JStr) : Bool := jsTrim v.coerce ≠ ""

/-- A value whose string content carries no surrounding whitespace.
All identifiers produced by the scrapers (digit strings from regexes) are clean. -/
def clean : JStr → Prop
  | .str s => jsTrim s = s
  | _ => True

instance : DecidablePred clean := by
  intro v; unfold clean; cases v <;> infer_instance

end JStr

/-- Sentinel state of an enrichable field, per the spec's tri-state semantics:
`undefined`/`null` = unknown (never attempted / retry), `""` = empty
(attempted, confirmed absent), non-empty string = present. -/
inductive Sentinel where
  | unknown
  | empty
  | present
deriving DecidableEq, Repr

/-- Sentinel state of a JS field value. -/
def sentinelOf : JStr → Sentinel
  | .undef => .unknown
  | .null => .unknown
  | .str s => if s = "" then .empty else .present

/-- `isNonEmpty` shared by the enrichment engines:
`typeof v === "string" ? v.trim() !== "" : (v != null)`. -/
def isNonEmptyJS : JStr → Bool
  | .str s => jsTrim s ≠ ""
  | _ => false

/-- `pick(a, b)` from the enrichment engines: prefer trim-non-empty `a`;
else trim-non-empty `b`; else `a` (keeps types). -/
def pick (a b : JStr) : JStr :=
  if a.trimNE then a else if b.trimNE then b else a

/-- Insertion-ordered JS `Map` with string keys, as an association list. -/
abbrev JMap (α : Type) := List (String × α)

namespace JMap

/-- `map.get(k)` (first matching key; keys are unique by construction of `set`). -/
def get? (m : JMap α) (k : String) : Option α := (m.find? (fun p => p.1 = k)).map (·.2)

/-- `map.has(k)`. -/
def has (m : JMap α) (k : String) : Bool := (m.find? (fun p => p.1 = k)).isSome

/-- `map.set(k, v)`: overwrite in place if the key exists, else append. -/
def set (m : JMap α) (k : String) (v : α) : JMap α :=
  if m.has k then m.map (fun p => if p.1 = k then (k, v) else p) else m ++ [(k, v)]

/-- `[...map.keys()]` in insertion order. -/
def keys (m : JMap α) : List String := m.map (·.1)

end JMap

/-- One step of `new Set` insertion: append the key unless already present. -/
def dedupStep (acc : List String) (k : String) : List String :=
  if acc.contains k then acc else acc ++ [k]

/-- `new Set(list)` on strings: insertion-ordered deduplication. -/
def jsSetOfList (l : List String) : List String := l.foldl dedupStep []

/-- The keying loop shared by all the engines:
`for (g of rows) { const id = key(g); if (!id) continue; map.set(id, g); }`. -/
def keyBy (key : α → String) (rows : List α) : JMap α :=
  rows.foldl (fun m g => if key g = "" then m else m.set (key g) g) []

namespace HK

/-- A row of `data/hk_games.json` / `data/hk_games_enriched.json`, restricted to the
fields `fetchProductCodesHK.js` reads or writes. `genres` is `some l` when the JSON
value is an array, `none` otherwise. -/
structure Row where
  nsuid_hk : JStr := .undef
  nsuid : JStr := .undef
  nsuid_txt : JStr := .undef
  title : JStr := .undef
  url : JStr := .undef
  productCode_hk : JStr := .undef
  platform : JStr := .undef
  releaseDate : JStr := .undef
  publisher : JStr := .undef
  imageSquare : JStr := .undef
  imageKey : JStr := .undef
  dlcType : JStr := .undef
  playerCount : JStr := .undef
  genres : Option (List String) := none
  active_in_base : Bool := false
  first_seen_at : JStr := .undef
  last_seen_at : JStr := .undef
  last_checked_at : JStr := .undef
deriving DecidableEq, Repr

/-- The identity key `String(g.nsuid_hk || g.nsuid || g.nsuid_txt || "")`. -/
def idOf (g : Row) : String := (g.nsuid_hk.jsOr (g.nsuid.jsOr g.nsuid_txt)).coerce

/-- `pickCode(baseVal, priorVal)`: special merge for `productCode_hk`, preserving the
`""` sentinel from the prior master. -/
def pickCode (baseVal priorVal : JStr) : JStr :=
  match baseVal with
  | .str s => if jsTrim s ≠ "" then .str s else pickCodeRest baseVal priorVal
  | _ => pickCodeRest baseVal priorVal
where
  /-- The fall-through cases: keep `""` sentinel, else keep any defined prior
  (possibly `null` to force retry), else fall back to the base value. -/
  pickCodeRest (baseVal priorVal : JStr) : JStr :=
    if priorVal = .str "" then .str ""
    else if priorVal ≠ .undef then priorVal
    else baseVal

/-- The body of the UNION loop (lines 350-382): start from the prior master row,
overlay safe fresh bits from today's base row. `base? = none` models `inBase.get(id)`
missing (so `base = {}` and `active_in_base = false`), likewise `prior?`. -/
def mergeRow (base? prior? : Option Row) (now : String) : Row :=
  let base := base?.getD {}
  let prior := prior?.getD {}
  let activeNow := base?.isSome
  { prior with
    title := if isNonEmptyJS base.title then base.title else prior.title
    url := if isNonEmptyJS base.url then base.url else prior.url
    nsuid_hk := pick base.nsuid_hk
      (pick prior.nsuid_hk
        (base.nsuid.jsOr (base.nsuid_txt.jsOr (prior.nsuid.jsOr prior.nsuid_txt))))
    active_in_base := activeNow
    first_seen_at := prior.first_seen_at.jsOr (prior.first_seen_at.jsOr (.str now))
    last_seen_at := if activeNow then .str now else prior.last_seen_at.jsOr (.str now)
    productCode_hk := pickCode base.productCode_hk prior.productCode_hk
    platform := pick base.platform prior.platform
    releaseDate := pick base.releaseDate prior.releaseDate
    publisher := pick base.publisher prior.publisher
    imageSquare := pick base.imageSquare prior.imageSquare
    imageKey := pick base.imageKey prior.imageKey
    dlcType := pick base.dlcType prior.dlcType
    playerCount := pick base.playerCount prior.playerCount
    genres := match base.genres with
      | some l => if l ≠ [] then some l else some ((prior.genres).getD [])
      | none => some ((prior.genres).getD []) }

/-- The `inBase` map: today's base rows keyed by identity (rows without an id skipped). -/
def inBaseMap (baseGames : List Row) : JMap Row := keyBy idOf baseGames

/-- The `byNsuid` map over the existing master (rows without an id skipped). -/
def byNsuidMap (existingMaster : List Row) : JMap Row := keyBy idOf existingMaster

/-- The UNION pass: merge `base ∪ existing` over the identity union, non-destructively. -/
def unionMerge (baseGames existingMaster : List Row) (now : String) : List Row :=
  let inBase := inBaseMap baseGames
  let byNsuid := byNsuidMap existingMaster
  (jsSetOfList (inBase.keys ++ byNsuid.keys)).map
    (fun id => mergeRow (inBase.get? id) (byNsuid.get? id) now)

/-- The worklist filter `toProcessCode` (lines 386-394): active rows with an id whose
`productCode_hk` is neither the `""` sentinel nor an already-known code. -/
def toProcessCodePred (g : Row) : Bool :=
  if !g.active_in_base then false
  else if !(g.nsuid_hk.jsOr (g.nsuid.jsOr g.nsuid_txt)).truthy then false
  else if g.productCode_hk = .str "" then false
  else match g.productCode_hk with
    | .str s => if jsTrim s ≠ "" then false else true
    | _ => true

def toProcessCode (working : List Row) : List Row := working.filter toProcessCodePred

/-- The worklist filter `toProcessPlatformOnly` (lines 396-402). -/
def toProcessPlatformOnlyPred (g : Row) : Bool :=
  if !g.active_in_base then false
  else
    let hasCode := match g.productCode_hk with
      | .str s => jsTrim s ≠ ""
      | _ => false
    let platMissing := !g.platform.truthy || jsTrim g.platform.coerce == ""
    hasCode && platMissing

def toProcessPlatformOnly (working : List Row) : List Row :=
  working.filter toProcessPlatformOnlyPred

/-- Result of `getProductCodeForNsuid`, projected to the fields the apply step reads:
`productCode` is a non-empty code (FOUND), `""` (NO_CODE / NOT_FOUND) or `null` (ERROR);
`platform` is a platform string or `null`. -/
structure CodeResult where
  productCode : JStr := .null
  platform : JStr := .null
deriving DecidableEq, Repr

/-- Pass-1 apply step (lines 430-441): write the fetched outcome into the row in place. -/
def applyCode (row : Row) (res : CodeResult) (now : String) : Row :=
  { row with
    productCode_hk := res.productCode
    platform := if !row.platform.truthy && res.platform.truthy then res.platform
      else row.platform
    last_checked_at := .str now }

/-- Pass-2 apply step (lines 454-467): fill platform when found, stamp `last_checked_at`. -/
def applyPlat (row : Row) (resPlatform : JStr) (now : String) : Row :=
  { row with
    platform := if resPlatform.truthy then resPlatform else row.platform
    last_checked_at := .str now }

/-- A whole run of the engine after the input files are loaded: UNION merge, then the
two fetch passes over the pre-computed worklists (in-place updates through
`idxByNsuid` are a per-row map when identities are distinct); `oracle` gives each
fetched nsuid its network outcome. Returns the written MASTER. -/
def run (baseGames existingMaster : List Row) (oracle : String → CodeResult)
    (platOracle : String → JStr) (now : String) : List Row :=
  let working := unionMerge baseGames existingMaster now
  let afterPass1 := working.map
    (fun g => if toProcessCodePred g then applyCode g (oracle (idOf g)) now else g)
  List.zipWith
    (fun g0 g1 => if toProcessPlatformOnlyPred g0 then applyPlat g1 (platOracle (idOf g0)) now
      else g1)
    working afterPass1

/-- The CURRENT snapshot: active rows only. -/
def snapshot (working : List Row) : List Row := working.filter (·.active_in_base)

end HK

namespace KR

/-- A row of `data/kr_games.json` / `data/kr_games_enriched.json`, restricted to the
fields `unnamed/part_000` reads or writes. -/
structure Row where
  nsuid_kr : JStr := .undef
  nsuid : JStr := .undef
  nsuid_txt : JStr := .undef
  title : JStr := .undef
  url : JStr := .undef
  productCode_kr : JStr := .undef
  platform : JStr := .undef
  releaseDate : JStr := .undef
  publisher : JStr := .undef
  imageSquare : JStr := .undef
  imageKey : JStr := .undef
  dlcType : JStr := .undef
  playerCount : JStr := .undef
  genres : Option (List String) := none
  supportLanguage : JStr := .undef
  active_in_base : Bool := false
  first_seen_at : JStr := .undef
  last_seen_at : JStr := .undef
  last_checked_at : JStr := .undef
deriving DecidableEq, Repr

/-- The identity key `String(g.nsuid_kr || g.nsuid || g.nsuid_txt || "")`. -/
def idOf (g : Row) : String := (g.nsuid_kr.jsOr (g.nsuid.jsOr g.nsuid_txt)).coerce

/-- `pickSupportLanguage(baseVal, priorVal)` (lines 222-228): the `""` sentinel of
`supportLanguage` (processed, no English) is preserved. -/
def pickSupportLanguage (baseVal priorVal : JStr) : JStr :=
  match baseVal with
  | .str s =>
    if jsTrim s ≠ "" then .str s
    else if s = "" then .str ""
    else pickSLRest baseVal priorVal
  | _ => pickSLRest baseVal priorVal
where
  /-- Fall-through: keep a `""` sentinel or any defined prior, else the base value. -/
  pickSLRest (baseVal priorVal : JStr) : JStr :=
    if priorVal = .str "" then .str ""
    else if priorVal ≠ .undef then priorVal
    else baseVal

/-- The body of the KR union loop (lines 315-343). Unlike the HK engine, the
`productCode_kr` merge uses the generic `pick`, not a sentinel-preserving variant. -/
def mergeRow (base? prior? : Option Row) (now : String) : Row :=
  let base := base?.getD {}
  let prior := prior?.getD {}
  let activeNow := base?.isSome
  { prior with
    title := if isNonEmptyJS base.title then base.title else prior.title
    url := if isNonEmptyJS base.url then base.url else prior.url
    nsuid_kr := pick base.nsuid_kr
      (pick prior.nsuid_kr
        (base.nsuid.jsOr (base.nsuid_txt.jsOr (prior.nsuid.jsOr prior.nsuid_txt))))
    active_in_base := activeNow
    first_seen_at := prior.first_seen_at.jsOr (prior.first_seen_at.jsOr (.str now))
    last_seen_at := if activeNow then .str now else prior.last_seen_at.jsOr (.str now)
    productCode_kr := pick base.productCode_kr prior.productCode_kr
    platform := pick base.platform prior.platform
    releaseDate := pick base.releaseDate prior.releaseDate
    publisher := pick base.publisher prior.publisher
    imageSquare := pick base.imageSquare prior.imageSquare
    imageKey := pick base.imageKey prior.imageKey
    dlcType := pick base.dlcType prior.dlcType
    playerCount := pick base.playerCount prior.playerCount
    genres := match base.genres with
      | some l => if l ≠ [] then some l else some ((prior.genres).getD [])
      | none => some ((prior.genres).getD [])
    supportLanguage := pickSupportLanguage base.supportLanguage prior.supportLanguage }

def inBaseMap (baseGames : List Row) : JMap Row := keyBy idOf baseGames

def byNsuidMap (existingMaster : List Row) : JMap Row := keyBy idOf existingMaster

/-- The KR union pass (lines 313-344). -/
def unionMerge (baseGames existingMaster : List Row) (now : String) : List Row :=
  let inBase := inBaseMap baseGames
  let byNsuid := byNsuidMap existingMaster
  (jsSetOfList (inBase.keys ++ byNsuid.keys)).map
    (fun id => mergeRow (inBase.get? id) (byNsuid.get? id) now)

/-- The single processing-list filter `toProcess` (lines 347-360). -/
def toProcessPred (g : Row) : Bool :=
  if !g.active_in_base then false
  else if !(g.nsuid_kr.jsOr (g.nsuid.jsOr g.nsuid_txt)).truthy then false
  else
    let code := g.productCode_kr
    let codeMissing := !(match code with
      | .str s => jsTrim s ≠ ""
      | _ => false) && code != JStr.str ""
    let platformMissing := !g.platform.truthy || jsTrim g.platform.coerce == ""
    let langUnset := g.supportLanguage == JStr.undef || g.supportLanguage == JStr.null
    if code = .str "" then false
    else codeMissing || platformMissing || langUnset

def toProcess (working : List Row) : List Row := working.filter toProcessPred

/-- Result of `getAllDetailsForNsuid`: on `OK`, `productCode` is a code string or
`null`, `platform` a string or `null`, `supportLanguage` is `"en"` or `""`;
`NOT_FOUND` sets `productCode` to `""`; `ERROR` leaves everything `null`. -/
inductive FetchRes where
  | NOT_FOUND
  | OK (productCode platform supportLanguage : JStr)
  | ERROR
deriving DecidableEq, Repr

/-- The apply step of the single fetch pass (lines 391-429). -/
def applyRes (row : Row) (res : FetchRes) (now : String) : Row :=
  let row' :=
    match res with
    | .NOT_FOUND => { row with productCode_kr := .str "" }
    | .OK productCode resPlatform resSupportLanguage =>
      let r1 :=
        if productCode.truthy then
          if !row.productCode_kr.truthy || row.productCode_kr == JStr.null
              || row.productCode_kr == JStr.undef then
            { row with productCode_kr := productCode }
          else row
        else if row.productCode_kr == JStr.null || row.productCode_kr == JStr.undef then
          { row with productCode_kr := .null }
        else row
      let r2 :=
        if !r1.platform.truthy && resPlatform.truthy then
          { r1 with platform := resPlatform }
        else r1
      let codeNow := r2.productCode_kr.jsOr productCode
      let hasCodeNow : Bool := match codeNow with
        | .str s => jsTrim s ≠ ""
        | _ => false
      if (r2.supportLanguage == JStr.undef || r2.supportLanguage == JStr.null) && hasCodeNow then
        if resSupportLanguage = JStr.str "en" then { r2 with supportLanguage := JStr.str "en" }
        else if resSupportLanguage = JStr.str "" then { r2 with supportLanguage := .str "" }
        else r2
      else r2
    | .ERROR => row
  { row' with last_checked_at := .str now }

/-- A whole KR run after loading: union merge, then the fetch pass over the worklist. -/
def run (baseGames existingMaster : List Row) (oracle : String → FetchRes)
    (now : String) : List Row :=
  let working := unionMerge baseGames existingMaster now
  working.map (fun g => if toProcessPred g then applyRes g (oracle (idOf g)) now else g)

def snapshot (working : List Row) : List Row := working.filter (·.active_in_base)

end KR

namespace EU

/-- A row of `data/eu_games_enriched.json`, restricted to the fields the EU part of
`fetch_us.js` reads or writes. -/
structure Row where
  title : JStr := .undef
  nsuid_eu : JStr := .undef
  url : JStr := .undef
  urlKey : JStr := .undef
  platform : JStr := .undef
  genres : Option (List String) := none
  releaseDate : JStr := .undef
  imageSquare : JStr := .undef
  imageKey : JStr := .undef
  publisher : JStr := .undef
  dlcType : JStr := .undef
  playerCount : JStr := .undef
  productCode_eu : JStr := .undef
  active_in_base : Bool := false
  first_seen_at : JStr := .undef
  last_seen_at : JStr := .undef
  last_checked_at : JStr := .undef
deriving DecidableEq, Repr

/-- The union-loop body of the EU MASTER merge (`fetch_us.js` lines 307-346). -/
def mergeRow (base? prior? : Option Row) (now : String) : Row :=
  let base := base?.getD {}
  let prior := prior?.getD {}
  let activeNow := base?.isSome
  { prior with
    title := pick base.title prior.title
    url := pick base.url prior.url
    urlKey := pick base.urlKey prior.urlKey
    platform := pick base.platform prior.platform
    genres := match base.genres with
      | some l => if l ≠ [] then some l else some ((prior.genres).getD [])
      | none => some ((prior.genres).getD [])
    releaseDate := pick base.releaseDate prior.releaseDate
    imageSquare := pick base.imageSquare prior.imageSquare
    imageKey := pick base.imageKey prior.imageKey
    publisher := pick base.publisher prior.publisher
    dlcType := pick base.dlcType prior.dlcType
    playerCount := pick base.playerCount prior.playerCount
    nsuid_eu := pick base.nsuid_eu prior.nsuid_eu
    productCode_eu := pick base.productCode_eu prior.productCode_eu
    active_in_base := activeNow
    first_seen_at := prior.first_seen_at.jsOr (prior.first_seen_at.jsOr (.str now))
    last_seen_at := if activeNow then .str now else prior.last_seen_at.jsOr (.str now)
    last_checked_at := if activeNow then .str now else prior.last_checked_at }

/-- `fetchedById` / `existingById`: rows keyed by `nsuid_eu` when truthy
(a string is truthy exactly when its coercion is non-empty). -/
def byIdMap (rows : List Row) : JMap Row := keyBy (fun e => e.nsuid_eu.coerce) rows

/-- The EU MASTER union (lines 303-347). -/
def unionMerge (fetched existing : List Row) (now : String) : List Row :=
  let fetchedById := byIdMap fetched
  let existingById := byIdMap existing
  (jsSetOfList (fetchedById.keys ++ existingById.keys)).map
    (fun id => mergeRow (fetchedById.get? id) (existingById.get? id) now)

def snapshot (master : List Row) : List Row := master.filter (·.active_in_base)

end EU

namespace FetchUS

/-- A saved `data/us_games.json` entry: the identity field `nsuid_us` plus the rest of
the mapped hit, opaque to the save step. -/
structure Entry where
  nsuid_us : JStr := .undef
  rest : List (String × JStr) := []
deriving DecidableEq, Repr

/-- The append-only save of `fetch_us.js` `main` (lines 116-124): keep the existing
file verbatim and append only fetched entries whose `nsuid_us` is not already present. -/
def save (fetched existing : List Entry) : List Entry :=
  let existingKeys := existing.map (·.nsuid_us)
  let newEntries := fetched.filter (fun e => !existingKeys.contains e.nsuid_us)
  existing ++ newEntries

end FetchUS

namespace FetchHK

/-- A saved `data/hk_games.json` entry: the identity field `nsuid_hk` plus the rest of
the mapped item, opaque to the save step. -/
structure Entry where
  nsuid_hk : JStr := .undef
  rest : List (String × JStr) := []
deriving DecidableEq, Repr

/-- The append-only save of `fetch_hk.js` `main` (lines 188-197): keys are the truthy
`nsuid_hk` values of the existing file; only fetched entries with a truthy, fresh
`nsuid_hk` are appended. -/
def save (fetched existing : List Entry) : List Entry :=
  let existingKeys := (existing.map (·.nsuid_hk)).filter (·.truthy)
  let newEntries := fetched.filter
    (fun e => e.nsuid_hk.truthy && !existingKeys.contains e.nsuid_hk)
  existing ++ newEntries

end FetchHK

namespace ME

/-- A region code, as used in the dynamic field names `nsuid_<region>` etc. -/
inductive Region where
  | us
  | jp
  | hk
  | eu
  | kr
deriving DecidableEq, Repr

/-- A `merge_enriched.js` item (one row of an enriched region file or of the merged
output), restricted to the fields the script reads or writes. `__activeRegions` is
the transient per-row set used for pruning. -/
structure Item where
  title : JStr := .undef
  url : JStr := .undef
  urlKey : JStr := .undef
  slug : JStr := .undef
  url_key : JStr := .undef
  platform : JStr := .undef
  nsuid : JStr := .undef
  nsuid_us : JStr := .undef
  nsuid_jp : JStr := .undef
  nsuid_hk : JStr := .undef
  nsuid_eu : JStr := .undef
  nsuid_kr : JStr := .undef
  productCode : JStr := .undef
  productCode_us : JStr := .undef
  productCode_jp : JStr := .undef
  productCode_hk : JStr := .undef
  productCode_eu : JStr := .undef
  productCode_kr : JStr := .undef
  supportLanguage : JStr := .undef
  supportLanguages : Option (List String) := none
  c_original_specification_supportLanguages : Option (List String) := none
  supportLanguage_us : JStr := .undef
  supportLanguage_jp : JStr := .undef
  supportLanguage_hk : JStr := .undef
  supportLanguage_eu : JStr := .undef
  supportLanguage_kr : JStr := .undef
  imageSquare : JStr := .undef
  image_square : JStr := .undef
  imageSquare_us : JStr := .undef
  imageSquare_jp : JStr := .undef
  imageSquare_hk : JStr := .undef
  imageSquare_eu : JStr := .undef
  imageSquare_kr : JStr := .undef
  active_in_base : Bool := false
  __activeRegions : List Region := []
deriving DecidableEq, Repr

/-- Access `item[nsuid_<region>]`. -/
def nsuidField (it : Item) : Region → JStr
  | .us => it.nsuid_us
  | .jp => it.nsuid_jp
  | .hk => it.nsuid_hk
  | .eu => it.nsuid_eu
  | .kr => it.nsuid_kr

/-- Write `item[nsuid_<region>] = v` (with `v = JStr.undef` modelling `delete`). -/
def setNsuidField (it : Item) (r : Region) (v : JStr) : Item :=
  match r with
  | .us => { it with nsuid_us := v }
  | .jp => { it with nsuid_jp := v }
  | .hk => { it with nsuid_hk := v }
  | .eu => { it with nsuid_eu := v }
  | .kr => { it with nsuid_kr := v }

/-- Access `item[productCode_<region>]`. -/
def pcField (it : Item) : Region → JStr
  | .us => it.productCode_us
  | .jp => it.productCode_jp
  | .hk => it.productCode_hk
  | .eu => it.productCode_eu
  | .kr => it.productCode_kr

/-- Write `item[productCode_<region>] = v`. -/
def setPcField (it : Item) (r : Region) (v : JStr) : Item :=
  match r with
  | .us => { it with productCode_us := v }
  | .jp => { it with productCode_jp := v }
  | .hk => { it with productCode_hk := v }
  | .eu => { it with productCode_eu := v }
  | .kr => { it with productCode_kr := v }

/-- Write `item[supportLanguage_<region>] = v` (`supportLangField`). -/
def setSlField (it : Item) (r : Region) (v : JStr) : Item :=
  match r with
  | .us => { it with supportLanguage_us := v }
  | .jp => { it with supportLanguage_jp := v }
  | .hk => { it with supportLanguage_hk := v }
  | .eu => { it with supportLanguage_eu := v }
  | .kr => { it with supportLanguage_kr := v }

/-- Access `item[imageSquare_<region>]`. -/
def imgSqField (it : Item) : Region → JStr
  | .us => it.imageSquare_us
  | .jp => it.imageSquare_jp
  | .hk => it.imageSquare_hk
  | .eu => it.imageSquare_eu
  | .kr => it.imageSquare_kr

/-- Write `item[imageSquare_<region>] = v`. -/
def setImgSqField (it : Item) (r : Region) (v : JStr) : Item :=
  match r with
  | .us => { it with imageSquare_us := v }
  | .jp => { it with imageSquare_jp := v }
  | .hk => { it with imageSquare_hk := v }
  | .eu => { it with imageSquare_eu := v }
  | .kr => { it with imageSquare_kr := v }

/-- `uc(s)`: `(s ?? '').toString().trim().toUpperCase()`. -/
def uc (s : JStr) : String := jsToUpper (jsTrim s.coerce)

/-- `normalizeNsuid(region, nsuidRaw)`: `null` for falsy input, else the trimmed
string, with a leading `'D'` stripped for JP. -/
def normalizeNsuid (region : Region) (nsuidRaw : JStr) : Option String :=
  if !nsuidRaw.truthy then none
  else
    let s := jsTrim nsuidRaw.coerce
    some (if region = .jp ∧ jsStartsWith s "D" then jsDrop s 1 else s)

/-- Digits of a string (`s.replace(/\D+/g, '')`). -/
def digitsOf (s : String) : String := String.mk (s.toList.filter Char.isDigit)

/-- `first4DigitsFromNsuid(nsuidRaw, region)`. -/
def first4DigitsFromNsuid (nsuidRaw : JStr) (region : Region) : Option String :=
  match normalizeNsuid region nsuidRaw with
  | none => none
  | some nsuid =>
    if nsuid = "" then none
    else
      let digits := digitsOf nsuid
      if digits.length ≥ 4 then some (jsTake digits 4) else none

/-- `pcFirst8(pc)`: first 8 characters of `uc(pc)` when long enough. -/
def pcFirst8 (pc : String) : Option String :=
  let s := jsToUpper (jsTrim pc)
  if s.length ≥ 8 then some (jsTake s 8) else none

/-- `pcPos4to8(pc)`: `uc(pc).slice(3, 8)` when long enough. -/
def pcPos4to8 (pc : String) : Option String :=
  let s := jsToUpper (jsTrim pc)
  if s.length ≥ 8 then some (jsTake (jsDrop s 3) 5) else none

/-- `getUrlKeyRaw(item)`: `item?.urlKey ?? item?.slug ?? item?.url_key ?? null`. -/
def getUrlKeyRaw (item : Item) : JStr :=
  item.urlKey.nullish (item.slug.nullish (item.url_key.nullish .null))

/-- Strip `^https?:\/\/[^/]+` (protocol plus host, when at least one non-slash
host character follows the protocol). -/
def stripProtoHost (t : String) : String :=
  let tryDrop : Nat → String := fun n =>
    let rest := jsDrop t n
    match rest.toList with
    | [] => t
    | c :: _ => if c = '/' then t else String.mk (rest.toList.dropWhile (fun d => d ≠ '/'))
  if jsStartsWith t "https://" then tryDrop 8
  else if jsStartsWith t "http://" then tryDrop 7
  else t

/-- Strip `^\/+|\/+$` (runs of slashes at both ends). -/
def stripEdgeSlashes (t : String) : String :=
  String.mk (((t.toList.dropWhile (fun c => c = '/')).reverse.dropWhile
    (fun c => c = '/')).reverse)

/-- Replace `[^a-z0-9]+` runs by `-` (as a per-character map; the following
collapse of `-+` makes this equivalent to the run-based regex). -/
def dashNonAlnum (t : String) : String :=
  String.mk (t.toList.map (fun c =>
    if ('a' ≤ c ∧ c ≤ 'z') ∨ ('0' ≤ c ∧ c ≤ '9') then c else '-'))

/-- Collapse runs of `-` to a single `-`. -/
def collapseDashes (t : String) : String :=
  String.mk (t.toList.foldl
    (fun acc c => if c = '-' ∧ acc.getLast? = some '-' then acc else acc ++ [c]) [])

/-- Strip a single leading and a single trailing `-` (`/^-|-$/g`; after the
collapse there are no runs left). -/
def stripEdgeDash (t : String) : String :=
  let l := t.toList
  let l := if l.head? = some '-' then l.tail else l
  let l := if l.getLast? = some '-' then l.dropLast else l
  String.mk l

/-- `normalizeSlug(s)`. -/
def normalizeSlug (s : JStr) : Option String :=
  if !s.truthy then none
  else
    let t := stripEdgeDash (collapseDashes (dashNonAlnum
      (stripEdgeSlashes (stripProtoHost (jsToLower (jsTrim s.coerce))))))
    if t = "" then none else some t

/-- The capture of `/\/([^/?#]+?)(?:\.html)?(?:\?|#|$)/i` on a URL: the last path
segment before the first `?`/`#`, with a single final `.html` stripped when the
remaining capture is non-empty. -/
def lastUrlSegment (url : String) : Option String :=
  let cut := url.toList.takeWhile (fun c => c ≠ '?' ∧ c ≠ '#')
  if cut.contains '/' then
    let seg := (cut.reverse.takeWhile (fun c => c ≠ '/')).reverse
    if seg = [] then none
    else
      let segS := String.mk seg
      if jsEndsWith segS ".html" ∧ segS.length > 5 then some (jsDropRight segS 5)
      else some segS
  else none

/-- `getUrlKey(item)`: normalized slug of the raw url key, else of the last
segment of `item.url`. -/
def getUrlKey (item : Item) : Option String :=
  let raw := getUrlKeyRaw item
  if raw.truthy then normalizeSlug raw
  else if item.url.truthy then
    match lastUrlSegment item.url.coerce with
    | some seg => if seg ≠ "" then normalizeSlug (.str seg) else none
    | none => none
  else none

/-- Remove all hyphens (`k.replace` with the global hyphen pattern). -/
def stripDashes (k : String) : String := String.mk (k.toList.filter (fun c => c ≠ '-'))

/-- `urlKeyLooseFromItem(item)`: the url key with hyphens removed. -/
def urlKeyLooseFromItem (item : Item) : Option String :=
  match getUrlKey item with
  | some k => some (stripDashes k)
  | none => none

/-- The character `'` (U+0027). -/
def apostropheChar : Char := Char.ofNat 39

/-- The character `’` (U+2019). -/
def rightQuoteChar : Char := Char.ofNat 0x2019

/-- `normalizeTitle(s)`: lowercase, strip apostrophes, collapse non-alphanumerics
to single spaces, trim. The source also applies NFKD accent-stripping, which is
the identity on the ASCII titles considered here. Returns `none` for falsy input
(the result string itself may be empty). -/
def normalizeTitle (s : JStr) : Option String :=
  if !s.truthy then none
  else
    let l := (jsToLower s.coerce).toList.filter
      (fun c => c ≠ apostropheChar ∧ c ≠ rightQuoteChar)
    let l := l.map (fun c =>
      if ('a' ≤ c ∧ c ≤ 'z') ∨ ('0' ≤ c ∧ c ≤ '9') then c else ' ')
    let l := l.foldl (fun acc c =>
      if c = ' ' ∧ acc.getLast? = some ' ' then acc else acc ++ [c]) []
    some (jsTrim (String.mk l))

/-- `normalizePlatform(s)`: `null` for falsy input, else trimmed lowercase. -/
def normalizePlatform (s : JStr) : JStr :=
  if !s.truthy then .null else .str (jsToLower (jsTrim s.coerce))

/-- `getPlatform(item)`. -/
def getPlatform (item : Item) : JStr := normalizePlatform item.platform

/-- `pickSupportLanguage(item)` from `merge_enriched.js` (lines 115-126). -/
def pickSupportLanguage (item : Item) : Option String :=
  let fromList : List String → Bool := fun l =>
    (l.map jsTrim).contains "en" || (l.map jsTrim).contains "en_US"
  let step3 : Option String :=
    match item.c_original_specification_supportLanguages with
    | some l => if fromList l then some "en" else none
    | none => none
  let step2 : Option String :=
    if isNonEmptyJS item.supportLanguage then some (jsTrim item.supportLanguage.coerce)
    else step3
  match item.supportLanguages with
  | some l => if fromList l then some "en" else step2
  | none => step2

/-- The four exact lookup structures plus the loose-slug buckets for one region. -/
structure RegionIdx where
  k1 : JMap Item := []
  k2 : JMap Item := []
  k3 : JMap Item := []
  k4 : JMap (List Item) := []
  kt : JMap Item := []
deriving Repr

/-- The k1 key an item contributes during index construction, when it satisfies the
guard (id, non-empty product code and platform all present). -/
def itemK1Key (region : Region) (item : Item) : Option String :=
  let nsuid := (nsuidField item region).nullish (item.nsuid.nullish .null)
  let f4 := first4DigitsFromNsuid nsuid region
  let pc := (pcField item region).nullish (item.productCode.nullish .null)
  let plat := getPlatform item
  match f4 with
  | some f =>
    if isNonEmptyJS pc ∧ plat.truthy then some (f ++ "|" ++ uc pc ++ "|" ++ plat.coerce)
    else none
  | none => none

/-- The k2 key an item contributes (8-character code slice), when defined. -/
def itemK2Key (region : Region) (item : Item) : Option String :=
  let nsuid := (nsuidField item region).nullish (item.nsuid.nullish .null)
  let f4 := first4DigitsFromNsuid nsuid region
  let pc := (pcField item region).nullish (item.productCode.nullish .null)
  let plat := getPlatform item
  match f4 with
  | some f =>
    if isNonEmptyJS pc ∧ plat.truthy then
      match pcFirst8 (uc pc) with
      | some pc8 => some (f ++ "|" ++ pc8 ++ "|" ++ plat.coerce)
      | none => none
    else none
  | none => none

/-- The k3 key an item contributes (middle code slice), when defined. -/
def itemK3Key (region : Region) (item : Item) : Option String :=
  let nsuid := (nsuidField item region).nullish (item.nsuid.nullish .null)
  let f4 := first4DigitsFromNsuid nsuid region
  let pc := (pcField item region).nullish (item.productCode.nullish .null)
  let plat := getPlatform item
  match f4 with
  | some f =>
    if isNonEmptyJS pc ∧ plat.truthy then
      match pcPos4to8 (uc pc) with
      | some pc48 => some (f ++ "|" ++ pc48 ++ "|" ++ plat.coerce)
      | none => none
    else none
  | none => none

/-- The title key an item contributes, when defined. -/
def itemKtKey (item : Item) : Option String :=
  match normalizeTitle item.title with
  | some t => if t ≠ "" ∧ (getPlatform item).truthy
      then some (t ++ "|" ++ (getPlatform item).coerce) else none
  | none => none

/-- The k1 insertion of one `buildRegionIndexes` step (insert only when absent). -/
def indexStepK1 (region : Region) (idx : RegionIdx) (item : Item) : RegionIdx :=
  match itemK1Key region item with
  | some key1 => if !idx.k1.has key1 then { idx with k1 := idx.k1.set key1 item } else idx
  | none => idx

/-- The k2 insertion of one `buildRegionIndexes` step. -/
def indexStepK2 (region : Region) (idx : RegionIdx) (item : Item) : RegionIdx :=
  match itemK2Key region item with
  | some key2 => if !idx.k2.has key2 then { idx with k2 := idx.k2.set key2 item } else idx
  | none => idx

/-- The k3 insertion of one `buildRegionIndexes` step. -/
def indexStepK3 (region : Region) (idx : RegionIdx) (item : Item) : RegionIdx :=
  match itemK3Key region item with
  | some key3 => if !idx.k3.has key3 then { idx with k3 := idx.k3.set key3 item } else idx
  | none => idx

/-- The loose-slug bucket append of one `buildRegionIndexes` step. -/
def indexStepK4 (idx : RegionIdx) (item : Item) : RegionIdx :=
  match urlKeyLooseFromItem item with
  | some u =>
    if u ≠ "" then
      match idx.k4.get? u with
      | some arrL => { idx with k4 := idx.k4.set u (arrL ++ [item]) }
      | none => { idx with k4 := idx.k4.set u [item] }
    else idx
  | none => idx

/-- The title-key insertion of one `buildRegionIndexes` step. -/
def indexStepKt (idx : RegionIdx) (item : Item) : RegionIdx :=
  match itemKtKey item with
  | some keyt => if !idx.kt.has keyt then { idx with kt := idx.kt.set keyt item } else idx
  | none => idx

/-- One step of `buildRegionIndexes`: exact keys are inserted only when absent,
loose-slug keys are appended to their bucket. -/
def indexStep (region : Region) (idx : RegionIdx) (item : Item) : RegionIdx :=
  indexStepKt (indexStepK4 (indexStepK3 region
    (indexStepK2 region (indexStepK1 region idx item) item) item) item) item

/-- `buildRegionIndexes(arr, region)` (lines 144-178). -/
def buildRegionIndexes (arr : List Item) (region : Region) : RegionIdx :=
  arr.foldl (indexStep region) {}

/-- The k4 tie-break key of a candidate: the first defined 4-digit prefix over all
regional id fields, else the first digits of `cand.nsuid` (up to 4). -/
def candF4 (cand : Item) : Option String :=
  (first4DigitsFromNsuid (cand.nsuid_us.nullish cand.nsuid) .us).orElse fun _ =>
  (first4DigitsFromNsuid (cand.nsuid_eu.nullish cand.nsuid) .eu).orElse fun _ =>
  (first4DigitsFromNsuid (cand.nsuid_jp.nullish cand.nsuid) .jp).orElse fun _ =>
  (first4DigitsFromNsuid (cand.nsuid_hk.nullish cand.nsuid) .hk).orElse fun _ =>
  (first4DigitsFromNsuid (cand.nsuid_kr.nullish cand.nsuid) .kr).orElse fun _ =>
  (let d4 := jsTake (digitsOf cand.nsuid.coerce) 4
   if d4 = "" then none else some d4)

/-- Resolve a non-singleton k4 bucket: prefer a candidate sharing the canonical
4-digit prefix, else fall back to the first indexed candidate. An empty bucket
(never produced by index construction) yields no match. -/
def resolveK4Bucket (candidates : List Item) (f4US : Option String) : Option Item :=
  match candidates with
  | [] => none
  | c0 :: _ =>
    if candidates.length = 1 then some c0
    else
      match f4US with
      | some f =>
        match candidates.find? (fun cand => candF4 cand = some f) with
        | some cand => some cand
        | none => some c0
      | none => some c0

/-- The normal rule chain of `tryMatch` (k1 → k2 → k3 → urlKey → title), lines
231-268. -/
def tryMatchNormal (regionIdx : RegionIdx) (usItem : Item) : Option (Item × String) :=
  let urlKeyUS := getUrlKey usItem
  let urlKeyUSL := match urlKeyUS with
    | some k => some (stripDashes k)
    | none => none
  let uklTruthy : Bool := match urlKeyUSL with
    | some k => k ≠ ""
    | none => false
  let usNsuid := usItem.nsuid_us.nullish usItem.nsuid
  let f4 := first4DigitsFromNsuid usNsuid .us
  let pcUS := usItem.productCode_us.nullish (usItem.productCode.nullish .null)
  let titleUS := normalizeTitle usItem.title
  let platUS := getPlatform usItem
  let exact : Option (Item × String) :=
    match f4 with
    | some f =>
      if isNonEmptyJS pcUS ∧ platUS.truthy then
        let pcU := uc pcUS
        let key1 := f ++ "|" ++ pcU ++ "|" ++ platUS.coerce
        match regionIdx.k1.get? key1 with
        | some it => some (it, "k1")
        | none =>
          let viaK2 : Option (Item × String) :=
            match pcFirst8 pcU with
            | some pc8 =>
              let key2 := f ++ "|" ++ pc8 ++ "|" ++ platUS.coerce
              match regionIdx.k2.get? key2 with
              | some it => some (it, "k2")
              | none => none
            | none => none
          match viaK2 with
          | some r => some r
          | none =>
            match pcPos4to8 pcU with
            | some pc48 =>
              let key3 := f ++ "|" ++ pc48 ++ "|" ++ platUS.coerce
              match regionIdx.k3.get? key3 with
              | some it => some (it, "k3")
              | none => none
            | none => none
      else none
    | none => none
  match exact with
  | some r => some r
  | none =>
    let viaK4 : Option (Item × String) :=
      if uklTruthy then
        match urlKeyUSL with
        | some u =>
          match regionIdx.k4.get? u with
          | some candidates =>
            match resolveK4Bucket candidates f4 with
            | some cand => some (cand, "k4")
            | none => none
          | none => none
        | none => none
      else none
    match viaK4 with
    | some r => some r
    | none =>
      match titleUS with
      | some t =>
        if t ≠ "" ∧ platUS.truthy then
          let keyt := t ++ "|" ++ platUS.coerce
          match regionIdx.kt.get? keyt with
          | some it => some (it, "title")
          | none => none
        else none
      | none => none

/-- `tryMatch(regionIdx, usItem, { strictUrlKeyHit })` (lines 199-268): the strict
urlKey-only mode when the row's url key is on the strict list (never falling back
to the other rules), else the normal rule chain. -/
def tryMatch (regionIdx : RegionIdx) (usItem : Item) (strictUrlKeyHit : Bool) :
    Option (Item × String) :=
  let urlKeyUS := getUrlKey usItem
  let urlKeyUSL := match urlKeyUS with
    | some k => some (stripDashes k)
    | none => none
  let ukTruthy : Bool := match urlKeyUS with
    | some k => k ≠ ""
    | none => false
  let uklTruthy : Bool := match urlKeyUSL with
    | some k => k ≠ ""
    | none => false
  let usNsuid := usItem.nsuid_us.nullish usItem.nsuid
  let f4 := first4DigitsFromNsuid usNsuid .us
  if strictUrlKeyHit && ukTruthy && uklTruthy then
    -- strict urlKey-only mode: never fall back to other rules
    match urlKeyUSL with
    | some u =>
      match regionIdx.k4.get? u with
      | some candidates =>
        match resolveK4Bucket candidates f4 with
        | some cand => some (cand, "strict-urlKey")
        | none => none
      | none => none
    | none => none
  else
    tryMatchNormal regionIdx usItem

/-- The regional identifier `appendRegionFields` would write: the matched row's
`nsuid_<region> ?? nsuid`, normalized when truthy (`if (nsuidVal) nsuidVal =
normalizeNsuid(region, nsuidVal)`). -/
def appendNsuidVal (matched : Item) (region : Region) : Option String :=
  let nsuidVal0 := (nsuidField matched region).nullish (matched.nsuid.nullish .null)
  if nsuidVal0.truthy then normalizeNsuid region nsuidVal0 else none

/-- The regional-id write of `appendRegionFields` (lines 274-283). -/
def appendStepNsuid (base : Item) (region : Region) (matched : Item) : Item :=
  match appendNsuidVal matched region with
  | some s => if jsTrim s ≠ "" then setNsuidField base region (.str (jsTrim s)) else base
  | none => base

/-- The product-code write of `appendRegionFields` (lines 285-287). -/
def appendStepPc (b1 : Item) (region : Region) (matched : Item) : Item :=
  let pcodeVal := (pcField matched region).nullish (matched.productCode.nullish .null)
  if isNonEmptyJS pcodeVal
    then setPcField b1 region (.str (jsToUpper (jsTrim pcodeVal.coerce))) else b1

/-- The support-language write of `appendRegionFields` (lines 289-291). -/
def appendStepSl (b2 : Item) (region : Region) (matched : Item) : Item :=
  match pickSupportLanguage matched with
  | some s => if jsTrim s ≠ "" then setSlField b2 region (.str (jsTrim s)) else b2
  | none => b2

/-- The platform fill of `appendRegionFields` (lines 293-295). -/
def appendStepPlatform (b3 : Item) (matched : Item) : Item :=
  let platformVal := matched.platform.nullish .null
  if !(isNonEmptyJS b3.platform) && isNonEmptyJS platformVal
    then { b3 with platform := .str (jsTrim platformVal.coerce) } else b3

/-- The square-image fill of `appendRegionFields` (lines 296-297). -/
def appendStepImg (b4 : Item) (region : Region) (matched : Item) : Item :=
  let imgSqVal := matched.imageSquare.nullish (matched.image_square.nullish .null)
  if isNonEmptyJS imgSqVal && !(isNonEmptyJS (imgSqField b4 region))
    then setImgSqField b4 region (.str (jsTrim imgSqVal.coerce)) else b4

/-- The field-copy part of `appendRegionFields` (lines 272-297): regional id, product
code, support language, platform and square image. -/
def appendCore (base : Item) (region : Region) (matched : Item) : Item :=
  appendStepImg (appendStepPlatform (appendStepSl (appendStepPc
    (appendStepNsuid base region matched) region matched) region matched) matched)
    region matched

/-- `appendRegionFields(base, region, matched)` (lines 272-310); the `onRaise`
callback only feeds the human-readable log and is not modelled. -/
def appendRegionFields (base : Item) (region : Region) (matched : Item) : Item :=
  let b5 := appendCore base region matched
  if matched.active_in_base then
    { b5 with
      active_in_base := true
      __activeRegions := if b5.__activeRegions.contains region then b5.__activeRegions
        else b5.__activeRegions ++ [region] }
  else b5

/-- The non-US regions tried for matching. -/
def REGIONS : List Region := [.jp, .hk, .eu]

/-- The regions whose `nsuid_*` fields are pruned. -/
def REGION_CODES_ALL : List Region := [.us, .jp, .hk, .eu]

/-- The per-row region loop of the merge pass (lines 348-367): try to match each
region in order, appending fields on success; also returns the per-region match
results (for the `seen` bookkeeping). -/
def matchFold (idxOf : Region → RegionIdx) (strictHit : Bool) (item0 : Item) :
    Item × List (Region × Option (Item × String)) :=
  REGIONS.foldl
    (fun acc r =>
      let res := tryMatch (idxOf r) acc.1 strictHit
      match res with
      | some (mi, _rule) => (appendRegionFields acc.1 r mi, acc.2 ++ [(r, res)])
      | none => (acc.1, acc.2 ++ [(r, none)]))
    (item0, [])

/-- The prune loop (lines 370-378): delete `nsuid_<rc>` for every region code not in
the row's `__activeRegions` set. -/
def pruneNsuids (item : Item) : Item :=
  REGION_CODES_ALL.foldl
    (fun it rc =>
      if nsuidField it rc ≠ .undef ∧ ¬it.__activeRegions.contains rc
      then setNsuidField it rc .undef else it)
    item

/-- The urlKey backfill of the merge pass (lines 381-386): when the merged row still
has a blank `urlKey`, recompute one from its own fields. -/
def ensureUrlKey (it : Item) : Item :=
  if !isNonEmptyJS it.urlKey then
    match getUrlKey it with
    | some ukNow => if ukNow ≠ "" then { it with urlKey := .str ukNow } else it
    | none => it
  else it

/-- The whole per-US-row body of the merge pass (lines 336-391): seed
`__activeRegions`, compute the strict-list hit, match all regions, prune, ensure a
`urlKey`, and clear the transient set (`delete item.__activeRegions`;
`sortKeysPretty` only reorders JSON keys and is the identity here). -/
def processRow (idxOf : Region → RegionIdx) (strictKeys : List String) (orig : Item) :
    Item × List (Region × Option (Item × String)) :=
  let item0 := { orig with __activeRegions := if orig.active_in_base then [.us] else [] }
  let strictHit := match getUrlKey item0 with
    | some uk => strictKeys.contains uk
    | none => false
  let folded := matchFold idxOf strictHit item0
  let item2 := pruneNsuids folded.1
  ({ ensureUrlKey item2 with __activeRegions := [] }, folded.2)

/-- The per-region `seen` set (lines 364-365): normalized ids of all matched region
records. -/
def seenSet (processed : List (Item × List (Region × Option (Item × String))))
    (r : Region) : List String :=
  processed.foldl
    (fun acc p =>
      match (p.2.find? (fun q => q.1 = r)).bind (·.2) with
      | some (mi, _) =>
        match normalizeNsuid r ((nsuidField mi r).nullish (mi.nsuid.nullish .null)) with
        | some idN => if idN ≠ "" ∧ ¬acc.contains idN then acc ++ [idN] else acc
        | none => acc
      | none => acc)
    []

/-- The leftovers of a region (lines 401-406): region entries with an id that was
not matched to any US row. -/
def leftoversOf (regionRows : List Item)
    (processed : List (Item × List (Region × Option (Item × String))))
    (r : Region) : List Item :=
  regionRows.filter (fun g =>
    match normalizeNsuid r ((nsuidField g r).nullish (g.nsuid.nullish .null)) with
    | some idN => idN ≠ "" ∧ ¬(seenSet processed r).contains idN
    | none => false)

/-- The EU-leftover clone (lines 410-418): keep the row verbatim, only ensuring a
`urlKey` when it is blank. -/
def cloneLeftover (g : Item) : Item :=
  if !isNonEmptyJS g.urlKey then
    match getUrlKey g with
    | some uk => if uk ≠ "" then { g with urlKey := .str uk } else g
    | none => g
  else g

/-- The whole cross-region merge pass of `merge_enriched.js main` (lines 313-424):
merge every US row against the region indexes, then append the unmatched EU
leftovers verbatim. Returns the list written to `output/merged_enriched.json`. -/
def run (us jp hk eu : List Item) (strictKeys : List String) : List Item :=
  let idxOf : Region → RegionIdx := fun r =>
    match r with
    | .jp => buildRegionIndexes jp .jp
    | .hk => buildRegionIndexes hk .hk
    | .eu => buildRegionIndexes eu .eu
    | _ => {}
  let processed := us.map (processRow idxOf strictKeys)
  let merged := processed.map (·.1)
  let euLeftovers := leftoversOf eu processed .eu
  merged ++ euLeftovers.map cloneLeftover

/-- `readJson(p)`: `JSON.parse(fs.readFileSync(p))` — a parse failure throws and
aborts the run. `none` models an unreadable or unparseable file. -/
def readJson (parsed : Option (List Item)) : Except Unit (List Item) :=
  match parsed with
  | some v => Except.ok v
  | none => Except.error ()

/-- The file-loading part of `merge_enriched.js main` (lines 315-319) followed by
the merge pass: any parse failure aborts before the output file is written. -/
def mainLoad (usP jpP hkP euP : Option (List Item)) (strictKeys : List String) :
    Except Unit (List Item) := do
  let us ← readJson usP
  let jp ← readJson jpP
  let hk ← readJson hkP
  let eu ← readJson euP
  Except.ok (run us jp hk eu strictKeys)

end ME

namespace HK

/-- `loadJsonSafe(p, def)`: a parse failure is swallowed and the default returned. -/
def loadJsonSafe (parsed : Option (List Row)) (dflt : List Row) : List Row :=
  parsed.getD dflt

/-- The HK engine entry point from file loading onwards: both inputs are loaded
with `loadJsonSafe(..., [])`, the run always proceeds, and both the MASTER and the
CURRENT snapshot are written. -/
def mainFiles (baseParsed masterParsed : Option (List Row))
    (oracle : String → CodeResult) (platOracle : String → JStr) (now : String) :
    List Row × List Row :=
  let baseGames := loadJsonSafe baseParsed []
  let existingMaster := loadJsonSafe masterParsed []
  let working := run baseGames existingMaster oracle platOracle now
  (working, snapshot working)

end HK

namespace ME

/-- Matching by rule k1 alone (exact key: 4-digit id, full uppercased code, platform). -/
def k1Match (regionIdx : RegionIdx) (usItem : Item) : Option (Item × String) :=
  let usNsuid := usItem.nsuid_us.nullish usItem.nsuid
  let f4 := first4DigitsFromNsuid usNsuid .us
  let pcUS := usItem.productCode_us.nullish (usItem.productCode.nullish .null)
  let platUS := getPlatform usItem
  match f4 with
  | some f =>
    if isNonEmptyJS pcUS ∧ platUS.truthy then
      match regionIdx.k1.get? (f ++ "|" ++ uc pcUS ++ "|" ++ platUS.coerce) with
      | some it => some (it, "k1")
      | none => none
    else none
  | none => none

/-- Matching by rule k2 alone (8-character code slice). -/
def k2Match (regionIdx : RegionIdx) (usItem : Item) : Option (Item × String) :=
  let usNsuid := usItem.nsuid_us.nullish usItem.nsuid
  let f4 := first4DigitsFromNsuid usNsuid .us
  let pcUS := usItem.productCode_us.nullish (usItem.productCode.nullish .null)
  let platUS := getPlatform usItem
  match f4 with
  | some f =>
    if isNonEmptyJS pcUS ∧ platUS.truthy then
      match pcFirst8 (uc pcUS) with
      | some pc8 =>
        match regionIdx.k2.get? (f ++ "|" ++ pc8 ++ "|" ++ platUS.coerce) with
        | some it => some (it, "k2")
        | none => none
      | none => none
    else none
  | none => none

/-- Matching by rule k3 alone (middle code slice). -/
def k3Match (regionIdx : RegionIdx) (usItem : Item) : Option (Item × String) :=
  let usNsuid := usItem.nsuid_us.nullish usItem.nsuid
  let f4 := first4DigitsFromNsuid usNsuid .us
  let pcUS := usItem.productCode_us.nullish (usItem.productCode.nullish .null)
  let platUS := getPlatform usItem
  match f4 with
  | some f =>
    if isNonEmptyJS pcUS ∧ platUS.truthy then
      match pcPos4to8 (uc pcUS) with
      | some pc48 =>
        match regionIdx.k3.get? (f ++ "|" ++ pc48 ++ "|" ++ platUS.coerce) with
        | some it => some (it, "k3")
        | none => none
      | none => none
    else none
  | none => none

/-- Matching by rule k4 alone (loose slug buckets with the first-4-digit tie-break). -/
def k4Match (regionIdx : RegionIdx) (usItem : Item) : Option (Item × String) :=
  let usNsuid := usItem.nsuid_us.nullish usItem.nsuid
  let f4 := first4DigitsFromNsuid usNsuid .us
  match getUrlKey usItem with
  | some k =>
    let u := stripDashes k
    if u ≠ "" then
      match regionIdx.k4.get? u with
      | some candidates =>
        match resolveK4Bucket candidates f4 with
        | some cand => some (cand, "k4")
        | none => none
      | none => none
    else none
  | none => none

/-- Matching by the title fallback alone. -/
def titleMatch (regionIdx : RegionIdx) (usItem : Item) : Option (Item × String) :=
  let platUS := getPlatform usItem
  match normalizeTitle usItem.title with
  | some t =>
    if t ≠ "" ∧ platUS.truthy then
      match regionIdx.kt.get? (t ++ "|" ++ platUS.coerce) with
      | some it => some (it, "title")
      | none => none
    else none
  | none => none

/-- The strict urlKey-only matcher: the loose-slug lookup and nothing else. -/
def strictK4Match (regionIdx : RegionIdx) (usItem : Item) : Option (Item × String) :=
  let usNsuid := usItem.nsuid_us.nullish usItem.nsuid
  let f4 := first4DigitsFromNsuid usNsuid .us
  match getUrlKey usItem with
  | some k =>
    let u := stripDashes k
    if k ≠ "" ∧ u ≠ "" then
      match regionIdx.k4.get? u with
      | some candidates =>
        match resolveK4Bucket candidates f4 with
        | some cand => some (cand, "strict-urlKey")
        | none => none
      | none => none
    else none
  | none => none

/-- The `activeRegions` set as the specification words it: a region enters it exactly
when the record matched from it has `active_in_base === true`, plus `us` when the US
base row itself does. -/
def activeRegionsOf (orig : Item)
    (results : List (Region × Option (Item × String))) : List Region :=
  (if orig.active_in_base then [Region.us] else []) ++
    results.filterMap (fun p =>
      match p.2 with
      | some (mi, _) => if mi.active_in_base then some p.1 else none
      | none => none)

end ME

namespace HK

/-- Restamp `last_seen_at` on an active row (the only churn a source-unchanged
rerun of the union merge produces). -/
def restampActive (t : String) (r : Row) : Row :=
  if r.active_in_base then { r with last_seen_at := .str t } else r

/-- All three identity fields carry no surrounding whitespace (true of every row the
scrapers and the engine itself produce). -/
def cleanIds (g : Row) : Prop :=
  g.nsuid_hk.clean ∧ g.nsuid.clean ∧ g.nsuid_txt.clean

instance (g : Row) : Decidable (cleanIds g) := by unfold cleanIds; infer_instance

/-- The set of identities of a master file: the non-empty identity keys of its rows. -/
def masterIds (l : List Row) : List String := (l.map idOf).filter (fun s => s ≠ "")

end HK

namespace KR

/-- All three identity fields carry no surrounding whitespace. -/
def cleanIds (g : Row) : Prop :=
  g.nsuid_kr.clean ∧ g.nsuid.clean ∧ g.nsuid_txt.clean

instance (g : Row) : Decidable (cleanIds g) := by unfold cleanIds; infer_instance

/-- The set of identities of a KR master file. -/
def masterIds (l : List Row) : List String := (l.map idOf).filter (fun s => s ≠ "")

end KR

namespace EU

/-- The identity of an EU row (the merge is keyed by `nsuid_eu`). -/
def idOf (e : Row) : String := e.nsuid_eu.coerce

/-- The set of identities of an EU master file. -/
def masterIds (l : List Row) : List String := (l.map idOf).filter (fun s => s ≠ "")

/-- The identity field carries no surrounding whitespace. -/
def cleanIds (e : Row) : Prop := e.nsuid_eu.clean

instance (e : Row) : Decidable (cleanIds e) := by unfold cleanIds; infer_instance

end EU

namespace FetchUS

/-- The identity keys of a saved US file, in order (`existing.map(e => e.nsuid_us)`). -/
def savedKeys (l : List Entry) : List JStr := l.map (·.nsuid_us)

end FetchUS

namespace FetchHK

/-- The truthy identity keys of a saved HK file, in order. -/
def savedKeys (l : List Entry) : List JStr := (l.map (·.nsuid_hk)).filter (·.truthy)

end FetchHK

/-- C1 scenario, prior KR master row: productCode sentinel `""` (empty). -/
def c1_prior : KR.Row :=
  { nsuid_kr := .str "70070000001111"
    title := .str "Example Game"
    productCode_kr := .str ""
    platform := .str "Nintendo Switch"
    supportLanguage := .str ""
    active_in_base := true
    first_seen_at := .str "2025-09-01T00:00:00.000Z"
    last_seen_at := .str "2025-09-01T00:00:00.000Z" }

/-- C1 scenario, today's KR base row for the same identity (the scraper emits no
`productCode_kr` field). -/
def c1_base : KR.Row :=
  { nsuid_kr := .str "70070000001111"
    title := .str "Example Game"
    url := .str "https://store.nintendo.co.kr/70070000001111" }

/-- C5 scenario, prior KR master row with the `""` sentinel. -/
def c5_prior : KR.Row :=
  { nsuid_kr := .str "70070000002222"
    title := .str "Another Game"
    productCode_kr := .str ""
    platform := .str "Nintendo Switch"
    supportLanguage := .str "en"
    active_in_base := true
    first_seen_at := .str "2025-09-01T00:00:00.000Z"
    last_seen_at := .str "2025-09-01T00:00:00.000Z" }

/-- C5 scenario, today's KR base row listing the same identity as active. -/
def c5_base : KR.Row :=
  { nsuid_kr := .str "70070000002222"
    title := .str "Another Game"
    url := .str "https://store.nintendo.co.kr/70070000002222" }

/-- C2 scenario, today's HK base row (the HK scraper emits `platform: ''` and no
product code). -/
def c2_base : HK.Row :=
  { nsuid_hk := .str "70010000003333"
    title := .str "HK Game"
    url := .str "https://store.nintendo.com.hk/70010000003333"
    platform := .str ""
    genres := some [] }

/-- C2 scenario, prior HK master row, already fully enriched (so no fetch happens). -/
def c2_prior : HK.Row :=
  { nsuid_hk := .str "70010000003333"
    title := .str "HK Game"
    productCode_hk := .str "HAC-P-AXXXA"
    platform := .str "Nintendo Switch"
    active_in_base := true
    first_seen_at := .str "2025-09-01T00:00:00.000Z"
    last_seen_at := .str "2025-09-01T00:00:00.000Z"
    last_checked_at := .str "2025-09-01T00:00:00.000Z" }

/-- A network oracle that is never consulted in the C2 scenario. -/
def c2_oracle : String → HK.CodeResult := fun _ => {}

/-- A platform oracle that is never consulted in the C2 scenario. -/
def c2_platOracle : String → JStr := fun _ => .null

/-- C6 scenario, prior EU master row whose `productCode_eu` is the `""` sentinel. -/
def c6_prior : EU.Row :=
  { nsuid_eu := .str "70010000004444"
    title := .str "Eu Game"
    urlKey := .str "eu-game-switch"
    platform := .str "Nintendo Switch"
    productCode_eu := .str ""
    active_in_base := true
    first_seen_at := .str "2025-09-01T00:00:00.000Z"
    last_seen_at := .str "2025-09-01T00:00:00.000Z" }

/-- C3 scenario, an EU master row that is inactive (`active_in_base = false`) and
matches no US row; it is appended to the merged output verbatim. -/
def c3_euRow : ME.Item :=
  { nsuid_eu := .str "70010000005555"
    title := .str "Leftover Game"
    urlKey := .str "leftover-game-switch"
    platform := .str "Nintendo Switch"
    active_in_base := false }

/-- C8 scenario, first-inserted JP region item. -/
def c8_item1 : ME.Item :=
  { nsuid_jp := .str "70010000006666"
    title := .str "Dup Key Game A"
    productCode_jp := .str "HACPAAAAA"
    platform := .str "Nintendo Switch" }

/-- C8 scenario, later-inserted JP region item producing the same exact keys. -/
def c8_item2 : ME.Item :=
  { nsuid_jp := .str "70010000007777"
    title := .str "Dup Key Game A"
    productCode_jp := .str "HACPAAAAA"
    platform := .str "Nintendo Switch" }

/-- C9 scenario, a fresh HK base row merged against a malformed master. -/
def c9_base : HK.Row :=
  { nsuid_hk := .str "70010000008888"
    title := .str "New HK Game"
    platform := .str "" }

/-- C4 witness, a fresh HK base row. -/
def w4_hk_base : HK.Row :=
  { nsuid_hk := .str "70010000010001", title := .str "B", platform := .str "" }

/-- C4 witness, a prior HK master row absent from today's base. -/
def w4_hk_prior : HK.Row :=
  { nsuid_hk := .str "70010000010002", title := .str "P", active_in_base := true
    first_seen_at := .str "2025-08-01T00:00:00.000Z"
    last_seen_at := .str "2025-08-01T00:00:00.000Z" }

/-- C4 witness, a prior KR master row. -/
def w4_kr_prior : KR.Row :=
  { nsuid_kr := .str "70070000010003", title := .str "P", active_in_base := true }

/-- C4 witness, a prior EU master row. -/
def w4_eu_prior : EU.Row :=
  { nsuid_eu := .str "70010000010004", title := .str "P", active_in_base := true }

/-- C6 witness, a fresh HK base row with a blank platform and no product code. -/
def w6_hk_base : HK.Row :=
  { nsuid_hk := .str "70010000010005", title := .str "W", platform := .str "" }

/-- C6 witness, a prior HK master row with a known platform and the `""` code sentinel. -/
def w6_hk_prior : HK.Row :=
  { nsuid_hk := .str "70010000010005", title := .str "W"
    productCode_hk := .str "", platform := .str "Nintendo Switch"
    active_in_base := true }

/-- C6 witness, a fresh EU row with a blank product code. -/
def w6_eu_base : EU.Row :=
  { nsuid_eu := .str "70010000010006", title := .str "W", productCode_eu := .str "" }

/-- C6 witness, a prior EU master row with a known (present) product code. -/
def w6_eu_prior : EU.Row :=
  { nsuid_eu := .str "70010000010006", title := .str "W"
    productCode_eu := .str "HACPBBBBB", active_in_base := true }

/-- C7 witness, one JP region row carrying only a slug (k4-indexable, not k1/k2/k3). -/
def w7_jp_row : ME.Item :=
  { nsuid_jp := .str "70010000010007"
    title := .str "Halo 2"
    urlKey := .str "halo-2-switch"
    active_in_base := true }

/-- C7 witness, the canonical US record with the same slug. -/
def w7_us : ME.Item :=
  { nsuid_us := .str "70010000010008"
    title := .str "Halo 2"
    urlKey := .str "halo-2-switch"
    platform := .str "Nintendo Switch"
    active_in_base := true }

/-- C3 witness, an active US row with an identifier, matched against empty indexes. -/
def w3_orig : ME.Item :=
  { nsuid_us := .str "70010000010009"
    title := .str "Solo Game"
    urlKey := .str "solo-game-switch"
    platform := .str "Nintendo Switch"
    active_in_base := true }

/-- C10 witness, previously saved HK entries. -/
def w10_hk_existing : List FetchHK.Entry :=
  [{ nsuid_hk := .str "70010000010010" }, { nsuid_hk := .str "70010000010011" }]

/-- C10 witness, freshly fetched HK entries (one already saved, one new). -/
def w10_hk_fetched : List FetchHK.Entry :=
  [{ nsuid_hk := .str "70010000010011" }, { nsuid_hk := .str "70010000010012" }]

/-- C10 witness, previously saved US entries. -/
def w10_us_existing : List FetchUS.Entry :=
  [{ nsuid_us := .str "70010000010013" }]

/-- C10 witness, freshly fetched US entries. -/
def w10_us_fetched : List FetchUS.Entry :=
  [{ nsuid_us := .str "70010000010013" }, { nsuid_us := .str "70010000010014" }]

/-- The non-destructive overlay contract for one field: the merged value takes the
fresh value when that is (trim-)non-empty, and a blank or missing fresh value never
erases a known prior value. -/
def NonDestructive (fresh prior merged : JStr) : Prop :=
  (fresh.trimNE = true → merged = fresh) ∧
  (fresh.trimNE = false → prior.trimNE = true → merged = prior)

namespace JStr

theorem clean_trimNE_eq_truthy (v : JStr) (h : v.clean) : v.trimNE = v.truthy := by
  cases v <;> simp_all [trimNE, truthy, coerce, clean] <;> rfl

theorem jsOr_of_truthy {a : JStr} (b : JStr) (h : a.truthy = true) : a.jsOr b = a := by
  simp [jsOr, h]

theorem jsOr_of_falsy {a : JStr} (b : JStr) (h : a.truthy = false) : a.jsOr b = b := by
  simp [jsOr, h]

theorem clean_pick {a b : JStr} (ha : a.clean) (hb : b.clean) : (pick a b).clean := by
  unfold pick; split <;> [exact ha; skip]; split <;> [exact hb; exact ha]

theorem clean_jsOr {a b : JStr} (ha : a.clean) (hb : b.clean) : (a.jsOr b).clean := by
  unfold jsOr; split <;> assumption

end JStr

theorem pick_of_left {a : JStr} (b : JStr) (h : a.trimNE = true) : pick a b = a := by
  simp [pick, h]

theorem pick_of_right {a b : JStr} (ha : a.trimNE = false) (hb : b.trimNE = true) :
    pick a b = b := by
  simp [pick, ha, hb]

theorem pick_of_neither {a b : JStr} (ha : a.trimNE = false) (hb : b.trimNE = false) :
    pick a b = a := by
  simp [pick, ha, hb]

theorem pick_idem_outer (a b : JStr) : pick a (pick a b) = pick a b := by
  unfold pick
  by_cases ha : a.trimNE <;> by_cases hb : b.trimNE <;> simp [ha, hb]

theorem pick_absorb (a c y : JStr) :
    pick a (pick (pick a (pick c y)) y) = pick a (pick c y) := by
  by_cases ha : a.trimNE = true
  · rw [pick_of_left _ ha, pick_of_left _ ha]
  · have ha' : a.trimNE = false := by simpa using ha
    by_cases hu : (pick c y).trimNE = true
    · rw [pick_of_right ha' hu]
      have h1 : pick (pick c y) y = pick c y := by
        rw [pick_of_left _ hu]
      rw [h1, pick_of_right ha' hu]
    · have hu' : (pick c y).trimNE = false := by simpa using hu
      have hy : y.trimNE = false := by
        by_contra hy
        have hy' : y.trimNE = true := by simpa using hy
        by_cases hc : c.trimNE = true
        · rw [pick_of_left _ hc] at hu'; rw [hc] at hu'; exact absurd hu' (by simp)
        · have hc' : c.trimNE = false := by simpa using hc
          rw [pick_of_right hc' hy'] at hu'
          rw [hy'] at hu'; exact absurd hu' (by simp)
      have h1 : pick a (pick c y) = a := pick_of_neither ha' hu'
      rw [h1, pick_of_neither ha' hy, pick_of_neither ha' ha']

namespace HK

theorem pickCode_idem_outer (a b : JStr) : pickCode a (pickCode a b) = pickCode a b := by
  unfold pickCode pickCode.pickCodeRest
  cases a with
  | str s =>
    by_cases hs : jsTrim s ≠ ""
    · simp [hs]
    · simp only [hs, if_false, reduceIte]
      cases b with
      | undef =>
        by_cases h0 : s = "" <;> simp [h0]
      | null => simp
      | str t =>
        by_cases ht : t = "" <;> simp [ht, eq_comm]
  | undef =>
    cases b with
    | undef => simp
    | null => simp
    | str t => by_cases ht : t = "" <;> simp [ht, eq_comm]
  | null =>
    cases b with
    | undef => simp
    | null => simp
    | str t => by_cases ht : t = "" <;> simp [ht, eq_comm]

end HK

/-- C1 (code bug, KR engine): a record whose `productCode_kr` is the `""` (empty)
sentinel and which is listed in today's base is regressed by the union merge — the
generic `pick` turns `""` into `undefined` (sentinel `empty → unknown`), and a full
run can then move it to `unknown` (fetch error) or even to `present` (fetch found a
code), both transitions the claim rules out. This contradicts the engine's own
header (`productCode_kr === "" stays "" (never reprocess)`). -/
theorem c1_kr_sentinel_regression :
    sentinelOf c1_prior.productCode_kr = .empty ∧
    sentinelOf ((KR.mergeRow (some c1_base) (some c1_prior)
      "2025-10-01T00:00:00.000Z").productCode_kr) = .unknown ∧
    (KR.run [c1_base] [c1_prior] (fun _ => .ERROR) "2025-10-01T00:00:00.000Z").map
      (fun g => sentinelOf g.productCode_kr) = [.unknown] ∧
    (KR.run [c1_base] [c1_prior]
        (fun _ => .OK (.str "HACPCCCCC") (.str "Nintendo Switch") (.str "en"))
        "2025-10-01T00:00:00.000Z").map
      (fun g => sentinelOf g.productCode_kr) = [.present] := by
  decide

/-- C5 (code bug, KR engine): a master record with the `""` productCode sentinel
that is active in today's source view is supposed to stay out of the fetch worklist
with its productCode untouched; instead the KR union merge first destroys the
sentinel (`productCode_kr` becomes `undefined`), so the record does appear in the
computed `toProcess` list. -/
theorem c5_kr_empty_sentinel_reprocessed :
    sentinelOf c5_prior.productCode_kr = .empty ∧
    (KR.unionMerge [c5_base] [c5_prior] "2025-10-01T00:00:00.000Z").map
      (·.active_in_base) = [true] ∧
    KR.toProcess (KR.unionMerge [c5_base] [c5_prior] "2025-10-01T00:00:00.000Z")
      = KR.unionMerge [c5_base] [c5_prior] "2025-10-01T00:00:00.000Z" ∧
    (KR.unionMerge [c5_base] [c5_prior] "2025-10-01T00:00:00.000Z").map
      (·.productCode_kr) = [.undef] := by
  decide

/-- C6 counterexample: in the EU engine a record absent from today's fetch whose
`productCode_eu` is the `""` (empty) sentinel has the field merged through the
generic `pick`, which returns the missing base value — downgrading the sentinel
from `empty` to `unknown`, which the claim forbids. -/
theorem c6_counterexample :
    sentinelOf c6_prior.productCode_eu = .empty ∧
    (EU.unionMerge [] [c6_prior] "2025-10-01T00:00:00.000Z").map
      (fun e => sentinelOf e.productCode_eu) = [.unknown] := by
  decide

/-- C2 counterexample: rerunning the HK engine on an unchanged source re-stamps
`last_seen_at` on the active record, so the second master differs from the first
even though both fetch worklists of the second run are empty (no record was
re-fetched). -/
theorem c2_counterexample :
    HK.run [c2_base]
        (HK.run [c2_base] [c2_prior] c2_oracle c2_platOracle "2025-10-01T00:00:00.000Z")
        c2_oracle c2_platOracle "2025-10-02T00:00:00.000Z"
      ≠ HK.run [c2_base] [c2_prior] c2_oracle c2_platOracle "2025-10-01T00:00:00.000Z" ∧
    HK.toProcessCode
        (HK.unionMerge [c2_base]
          (HK.run [c2_base] [c2_prior] c2_oracle c2_platOracle "2025-10-01T00:00:00.000Z")
          "2025-10-02T00:00:00.000Z") = [] ∧
    HK.toProcessPlatformOnly
        (HK.unionMerge [c2_base]
          (HK.run [c2_base] [c2_prior] c2_oracle c2_platOracle "2025-10-01T00:00:00.000Z")
          "2025-10-02T00:00:00.000Z") = [] := by
  decide

/-- C3 counterexample: an inactive, unmatched EU master row is appended to the
merged output verbatim, with `nsuid_eu` still present although no region is active
on it (`active_in_base` is false and it matched no US row) — so `nsuid_<region>`
present does not imply `region ∈ activeRegions`. -/
theorem c3_counterexample :
    ME.run [] [] [] [c3_euRow] [] = [c3_euRow] ∧
    c3_euRow.nsuid_eu ≠ .undef ∧
    c3_euRow.active_in_base = false := by
  decide

/-- C8 counterexample: when two region records produce the same exact k1 key at
insertion time, the index keeps the FIRST-inserted record, not the last-written
one the claim states. -/
theorem c8_counterexample :
    ME.itemK1Key .jp c8_item1 = some "7001|HACPAAAAA|nintendo switch" ∧
    ME.itemK1Key .jp c8_item2 = some "7001|HACPAAAAA|nintendo switch" ∧
    (ME.buildRegionIndexes [c8_item1, c8_item2] .jp).k1.get?
      "7001|HACPAAAAA|nintendo switch" = some c8_item1 ∧
    c8_item1 ≠ c8_item2 := by
  decide

/-- C9 counterexample: with a malformed (unparseable) prior master, the HK engine
does not fail at startup — `loadJsonSafe` swallows the error and the run writes a
master and a snapshot anyway (rebuilt from today's base alone). -/
theorem c9_counterexample :
    (HK.mainFiles (some [c9_base]) none (fun _ => {}) (fun _ => .null)
      "2025-10-01T00:00:00.000Z").1.length = 1 ∧
    (HK.mainFiles (some [c9_base]) none (fun _ => {}) (fun _ => .null)
      "2025-10-01T00:00:00.000Z").2.length = 1 := by
  decide

/-- C9 (amended): `merge_enriched.js` does fail fast — a parse failure of the US
file or of a region file aborts before the output is written; the per-region
enrichment engines instead treat a malformed file as the empty default and
proceed: a malformed master is indistinguishable from an empty one, and the run
still writes both output files. -/
theorem c9_parse_failure_behavior :
    (∀ jpP hkP euP strictKeys, ME.mainLoad none jpP hkP euP strictKeys = .error ()) ∧
    (∀ us hkP euP strictKeys,
      ME.mainLoad (some us) none hkP euP strictKeys = .error ()) ∧
    (∀ baseP oracle platOracle now,
      HK.mainFiles baseP none oracle platOracle now
        = HK.mainFiles baseP (some []) oracle platOracle now) :=
  ⟨fun _ _ _ _ => rfl, fun _ _ _ _ => rfl, fun _ _ _ _ => rfl⟩

theorem isNonEmptyJS_eq_trimNE (v : JStr) : isNonEmptyJS v = v.trimNE := by
  cases v <;> simp [isNonEmptyJS, JStr.trimNE, JStr.coerce] <;> decide

theorem nonDestructive_pick (a b : JStr) : NonDestructive a b (pick a b) :=
  ⟨fun h => pick_of_left b h, fun h1 h2 => pick_of_right h1 h2⟩

theorem nonDestructive_overlayIte (a b : JStr) :
    NonDestructive a b (if isNonEmptyJS a then a else b) := by
  constructor
  · intro h
    rw [isNonEmptyJS_eq_trimNE, h]
    rfl
  · intro h1 _h2
    rw [isNonEmptyJS_eq_trimNE, h1]
    rfl

/-- C6 (amended): the union merges start from the prior row and apply the
non-destructive overlay to every field — a field is overwritten only by a
(trim-)non-empty fresh value, and a blank/missing fresh field never erases a known
value. The productCode sentinel rule holds fully in the HK engine (`pickCode`
preserves both the `""` sentinel and any present value under a blank fresh value);
the EU engine preserves a present (trim-non-empty) `productCode_eu` under a blank
fresh value, but — as the counterexample shows — drops the `""` sentinel of a
record that is absent from today's fetch. -/
theorem c6_nondestructive_overlay (b p : HK.Row) (b' p' : EU.Row) (t : String) :
    NonDestructive b.title p.title (HK.mergeRow (some b) (some p) t).title ∧
    NonDestructive b.url p.url (HK.mergeRow (some b) (some p) t).url ∧
    NonDestructive b.platform p.platform (HK.mergeRow (some b) (some p) t).platform ∧
    NonDestructive b.releaseDate p.releaseDate
      (HK.mergeRow (some b) (some p) t).releaseDate ∧
    NonDestructive b.publisher p.publisher (HK.mergeRow (some b) (some p) t).publisher ∧
    NonDestructive b.imageSquare p.imageSquare
      (HK.mergeRow (some b) (some p) t).imageSquare ∧
    NonDestructive b.imageKey p.imageKey (HK.mergeRow (some b) (some p) t).imageKey ∧
    NonDestructive b.dlcType p.dlcType (HK.mergeRow (some b) (some p) t).dlcType ∧
    NonDestructive b.playerCount p.playerCount
      (HK.mergeRow (some b) (some p) t).playerCount ∧
    (isNonEmptyJS b.productCode_hk = true →
      (HK.mergeRow (some b) (some p) t).productCode_hk = b.productCode_hk) ∧
    (isNonEmptyJS b.productCode_hk = false → sentinelOf p.productCode_hk = .empty →
      (HK.mergeRow (some b) (some p) t).productCode_hk = .str "") ∧
    (isNonEmptyJS b.productCode_hk = false → sentinelOf p.productCode_hk = .present →
      (HK.mergeRow (some b) (some p) t).productCode_hk = p.productCode_hk) ∧
    NonDestructive b'.title p'.title (EU.mergeRow (some b') (some p') t).title ∧
    NonDestructive b'.url p'.url (EU.mergeRow (some b') (some p') t).url ∧
    NonDestructive b'.urlKey p'.urlKey (EU.mergeRow (some b') (some p') t).urlKey ∧
    NonDestructive b'.platform p'.platform
      (EU.mergeRow (some b') (some p') t).platform ∧
    NonDestructive b'.releaseDate p'.releaseDate
      (EU.mergeRow (some b') (some p') t).releaseDate ∧
    NonDestructive b'.imageSquare p'.imageSquare
      (EU.mergeRow (some b') (some p') t).imageSquare ∧
    NonDestructive b'.imageKey p'.imageKey
      (EU.mergeRow (some b') (some p') t).imageKey ∧
    NonDestructive b'.publisher p'.publisher
      (EU.mergeRow (some b') (some p') t).publisher ∧
    NonDestructive b'.dlcType p'.dlcType (EU.mergeRow (some b') (some p') t).dlcType ∧
    NonDestructive b'.playerCount p'.playerCount
      (EU.mergeRow (some b') (some p') t).playerCount ∧
    NonDestructive b'.nsuid_eu p'.nsuid_eu (EU.mergeRow (some b') (some p') t).nsuid_eu ∧
    NonDestructive b'.productCode_eu p'.productCode_eu
      (EU.mergeRow (some b') (some p') t).productCode_eu := by
  refine ⟨nonDestructive_overlayIte _ _, nonDestructive_overlayIte _ _,
    nonDestructive_pick _ _, nonDestructive_pick _ _, nonDestructive_pick _ _,
    nonDestructive_pick _ _, nonDestructive_pick _ _, nonDestructive_pick _ _,
    nonDestructive_pick _ _, ?_, ?_, ?_,
    nonDestructive_pick _ _, nonDestructive_pick _ _, nonDestructive_pick _ _,
    nonDestructive_pick _ _, nonDestructive_pick _ _, nonDestructive_pick _ _,
    nonDestructive_pick _ _, nonDestructive_pick _ _, nonDestructive_pick _ _,
    nonDestructive_pick _ _, nonDestructive_pick _ _, nonDestructive_pick _ _⟩
  · intro h
    show HK.pickCode b.productCode_hk p.productCode_hk = b.productCode_hk
    cases hb : b.productCode_hk with
    | str s =>
      rw [hb] at h
      have h' : jsTrim s ≠ "" := by simpa [isNonEmptyJS] using h
      simp [HK.pickCode, h']
    | undef => rw [hb] at h; simp [isNonEmptyJS] at h
    | null => rw [hb] at h; simp [isNonEmptyJS] at h
  · intro h hemp
    show HK.pickCode b.productCode_hk p.productCode_hk = .str ""
    have hp : p.productCode_hk = .str "" := by
      cases hpc : p.productCode_hk with
      | str s =>
        rw [hpc] at hemp
        simp only [sentinelOf] at hemp
        split at hemp
        · simp_all
        · exact absurd hemp (by simp)
      | undef => rw [hpc] at hemp; simp [sentinelOf] at hemp
      | null => rw [hpc] at hemp; simp [sentinelOf] at hemp
    rw [hp]
    cases hb : b.productCode_hk with
    | str s =>
      rw [hb] at h
      have h' : jsTrim s = "" := by simpa [isNonEmptyJS] using h
      simp [HK.pickCode, HK.pickCode.pickCodeRest, h']
    | undef => simp [HK.pickCode, HK.pickCode.pickCodeRest]
    | null => simp [HK.pickCode, HK.pickCode.pickCodeRest]
  · intro h hpres
    show HK.pickCode b.productCode_hk p.productCode_hk = p.productCode_hk
    obtain ⟨s, hs, hne⟩ : ∃ s, p.productCode_hk = .str s ∧ s ≠ "" := by
      cases hpc : p.productCode_hk with
      | str s =>
        rw [hpc] at hpres
        simp only [sentinelOf] at hpres
        split at hpres
        · exact absurd hpres (by simp)
        · exact ⟨s, rfl, by assumption⟩
      | undef => rw [hpc] at hpres; simp [sentinelOf] at hpres
      | null => rw [hpc] at hpres; simp [sentinelOf] at hpres
    rw [hs]
    cases hb : b.productCode_hk with
    | str u =>
      rw [hb] at h
      have h' : jsTrim u = "" := by simpa [isNonEmptyJS] using h
      simp [HK.pickCode, HK.pickCode.pickCodeRest, h', hne]
    | undef => simp [HK.pickCode, HK.pickCode.pickCodeRest, hne]
    | null => simp [HK.pickCode, HK.pickCode.pickCodeRest, hne]

/-- C6 witness: at concrete rows, the HK merge keeps the `""` sentinel and the known
platform under blank fresh values, and the EU merge keeps the present product code. -/
theorem c6_witness :
    (HK.mergeRow (some w6_hk_base) (some w6_hk_prior)
      "2025-10-01T00:00:00.000Z").productCode_hk = .str "" ∧
    (HK.mergeRow (some w6_hk_base) (some w6_hk_prior)
      "2025-10-01T00:00:00.000Z").platform = w6_hk_prior.platform ∧
    (EU.mergeRow (some w6_eu_base) (some w6_eu_prior)
      "2025-10-01T00:00:00.000Z").productCode_eu = w6_eu_prior.productCode_eu := by
  obtain ⟨_, _, hplat, _, _, _, _, _, _, _hpc1, hpc2, _hpc3, hrest⟩ :=
    c6_nondestructive_overlay w6_hk_base w6_hk_prior w6_eu_base w6_eu_prior
      "2025-10-01T00:00:00.000Z"
  refine ⟨hpc2 (by decide) (by decide), hplat.2 (by decide) (by decide), ?_⟩
  obtain ⟨_, _, _, _, _, _, _, _, _, _, _, hpceu⟩ := hrest
  exact hpceu.2 (by decide) (by decide)

namespace JMap

theorem has_eq_isSome_get? (m : JMap α) (k : String) : has m k = (get? m k).isSome := by
  unfold has get?
  cases m.find? (fun p => p.1 = k) <;> rfl

theorem mem_keys_iff_has (m : JMap α) (k : String) : k ∈ keys m ↔ has m k = true := by
  induction m with
  | nil => simp [keys, has]
  | cons p t ih =>
    unfold keys has
    rw [List.map_cons, List.mem_cons]
    by_cases hp : p.1 = k
    · rw [List.find?_cons_of_pos _ (by simp [hp])]
      simp [hp]
    · rw [List.find?_cons_of_neg _ (by simp [hp])]
      unfold keys has at ih
      rw [← ih]
      constructor
      · intro h
        cases h with
        | inl h => exact absurd h.symm hp
        | inr h => exact h
      · exact Or.inr

theorem get?_append_single (m : JMap α) (k : String) (v : α) (key : String) :
    get? (m ++ [(k, v)]) key =
      match get? m key with
      | some u => some u
      | none => if k = key then some v else none := by
  unfold get?
  rw [List.find?_append]
  cases hf : m.find? (fun p => p.1 = key) with
  | some u => simp [hf]
  | none =>
    by_cases hk : k = key <;> simp [hf, List.find?, hk]

theorem keys_set_of_not_has (m : JMap α) (k : String) (v : α) (h : has m k = false) :
    keys (set m k v) = keys m ++ [k] := by
  unfold set
  rw [h]
  simp [keys]

theorem find?_replaceKey (t : List (String × α)) (k : String) (v : α) (key : String)
    (hne : k ≠ key) :
    List.find? (fun p => p.1 = key) (t.map (fun p => if p.1 = k then (k, v) else p))
      = List.find? (fun p => p.1 = key) t := by
  induction t with
  | nil => rfl
  | cons p t ih =>
    rw [List.map_cons]
    by_cases hp : p.1 = k
    · rw [if_pos hp]
      rw [List.find?_cons_of_neg _ (by simp [hne]),
        List.find?_cons_of_neg _ (by simp [hp, hne])]
      exact ih
    · rw [if_neg hp]
      by_cases hq : p.1 = key
      · rw [List.find?_cons_of_pos _ (by simp [hq]), List.find?_cons_of_pos _ (by simp [hq])]
      · rw [List.find?_cons_of_neg _ (by simp [hq]), List.find?_cons_of_neg _ (by simp [hq])]
        exact ih

theorem find?_replaceKey_self (t : List (String × α)) (k : String) (v : α) :
    List.find? (fun p => p.1 = k) (t.map (fun p => if p.1 = k then (k, v) else p))
      = (List.find? (fun p => p.1 = k) t).map (fun _ => (k, v)) := by
  induction t with
  | nil => rfl
  | cons p t ih =>
    rw [List.map_cons]
    by_cases hp : p.1 = k
    · rw [if_pos hp]
      have h1 : List.find? (fun q => decide (q.1 = k))
          ((k, v) :: List.map (fun p => if p.1 = k then (k, v) else p) t) = some (k, v) := by
        apply List.find?_cons_of_pos
        simp
      rw [h1, List.find?_cons_of_pos _ (by simp [hp])]
      rfl
    · rw [if_neg hp]
      rw [List.find?_cons_of_neg _ (by simp [hp]), List.find?_cons_of_neg _ (by simp [hp])]
      exact ih

theorem get?_set_self (m : JMap α) (k : String) (v : α) : get? (set m k v) k = some v := by
  unfold set
  by_cases h : has m k
  · rw [if_pos h]
    unfold get?
    rw [find?_replaceKey_self]
    rw [has_eq_isSome_get?] at h
    cases hg : get? m k with
    | some u =>
      unfold get? at hg
      cases hf : m.find? (fun p => p.1 = k) with
      | some w => rw [hf] at hg; simp [hf]
      | none => rw [hf] at hg; simp at hg
    | none => rw [hg] at h; simp at h
  · rw [if_neg h]
    unfold get?
    rw [List.find?_append]
    have h0 : get? m k = none := by
      rw [has_eq_isSome_get?] at h
      cases hg : get? m k with
      | some u => rw [hg] at h; simp at h
      | none => rfl
    unfold get? at h0
    cases hf : m.find? (fun p => p.1 = k) with
    | some u => rw [hf] at h0; simp at h0
    | none => simp [List.find?]

theorem get?_set_ne (m : JMap α) (k : String) (v : α) (key : String) (hne : k ≠ key) :
    get? (set m k v) key = get? m key := by
  unfold set
  by_cases h : has m k
  · rw [if_pos h]
    unfold get?
    rw [find?_replaceKey _ _ _ _ hne]
  · rw [if_neg h]
    rw [get?_append_single]
    cases hg : get? m key <;> simp [hg, hne]

end JMap

namespace ME

theorem indexStepK1_k2 (region : Region) (idx : RegionIdx) (item : Item) :
    (indexStepK1 region idx item).k2 = idx.k2 := by
  unfold indexStepK1; (repeat' split) <;> rfl

theorem indexStepK1_k3 (region : Region) (idx : RegionIdx) (item : Item) :
    (indexStepK1 region idx item).k3 = idx.k3 := by
  unfold indexStepK1; (repeat' split) <;> rfl

theorem indexStepK1_kt (region : Region) (idx : RegionIdx) (item : Item) :
    (indexStepK1 region idx item).kt = idx.kt := by
  unfold indexStepK1; (repeat' split) <;> rfl

theorem indexStepK2_k1 (region : Region) (idx : RegionIdx) (item : Item) :
    (indexStepK2 region idx item).k1 = idx.k1 := by
  unfold indexStepK2; (repeat' split) <;> rfl

theorem indexStepK2_k3 (region : Region) (idx : RegionIdx) (item : Item) :
    (indexStepK2 region idx item).k3 = idx.k3 := by
  unfold indexStepK2; (repeat' split) <;> rfl

theorem indexStepK2_kt (region : Region) (idx : RegionIdx) (item : Item) :
    (indexStepK2 region idx item).kt = idx.kt := by
  unfold indexStepK2; (repeat' split) <;> rfl

theorem indexStepK3_k1 (region : Region) (idx : RegionIdx) (item : Item) :
    (indexStepK3 region idx item).k1 = idx.k1 := by
  unfold indexStepK3; (repeat' split) <;> rfl

theorem indexStepK3_k2 (region : Region) (idx : RegionIdx) (item : Item) :
    (indexStepK3 region idx item).k2 = idx.k2 := by
  unfold indexStepK3; (repeat' split) <;> rfl

theorem indexStepK3_kt (region : Region) (idx : RegionIdx) (item : Item) :
    (indexStepK3 region idx item).kt = idx.kt := by
  unfold indexStepK3; (repeat' split) <;> rfl

theorem indexStepK4_k1 (idx : RegionIdx) (item : Item) :
    (indexStepK4 idx item).k1 = idx.k1 := by
  unfold indexStepK4; (repeat' split) <;> rfl

theorem indexStepK4_k2 (idx : RegionIdx) (item : Item) :
    (indexStepK4 idx item).k2 = idx.k2 := by
  unfold indexStepK4; (repeat' split) <;> rfl

theorem indexStepK4_k3 (idx : RegionIdx) (item : Item) :
    (indexStepK4 idx item).k3 = idx.k3 := by
  unfold indexStepK4; (repeat' split) <;> rfl

theorem indexStepK4_kt (idx : RegionIdx) (item : Item) :
    (indexStepK4 idx item).kt = idx.kt := by
  unfold indexStepK4; (repeat' split) <;> rfl

theorem indexStepKt_k1 (idx : RegionIdx) (item : Item) :
    (indexStepKt idx item).k1 = idx.k1 := by
  unfold indexStepKt; (repeat' split) <;> rfl

theorem indexStepKt_k2 (idx : RegionIdx) (item : Item) :
    (indexStepKt idx item).k2 = idx.k2 := by
  unfold indexStepKt; (repeat' split) <;> rfl

theorem indexStepKt_k3 (idx : RegionIdx) (item : Item) :
    (indexStepKt idx item).k3 = idx.k3 := by
  unfold indexStepKt; (repeat' split) <;> rfl

theorem indexStep_k1 (region : Region) (idx : RegionIdx) (item : Item) :
    (indexStep region idx item).k1 =
      match itemK1Key region item with
      | some key1 =>
        if JMap.has idx.k1 key1 then idx.k1 else JMap.set idx.k1 key1 item
      | none => idx.k1 := by
  unfold indexStep
  rw [indexStepKt_k1, indexStepK4_k1, indexStepK3_k1, indexStepK2_k1]
  unfold indexStepK1
  cases itemK1Key region item with
  | none => rfl
  | some key1 => by_cases h : JMap.has idx.k1 key1 <;> simp [h]

theorem indexStep_k2 (region : Region) (idx : RegionIdx) (item : Item) :
    (indexStep region idx item).k2 =
      match itemK2Key region item with
      | some key2 =>
        if JMap.has idx.k2 key2 then idx.k2 else JMap.set idx.k2 key2 item
      | none => idx.k2 := by
  unfold indexStep
  rw [indexStepKt_k2, indexStepK4_k2, indexStepK3_k2]
  unfold indexStepK2
  cases itemK2Key region item with
  | none => exact indexStepK1_k2 region idx item
  | some key2 =>
    by_cases h : JMap.has idx.k2 key2 <;> simp [h, indexStepK1_k2]

theorem indexStep_k3 (region : Region) (idx : RegionIdx) (item : Item) :
    (indexStep region idx item).k3 =
      match itemK3Key region item with
      | some key3 =>
        if JMap.has idx.k3 key3 then idx.k3 else JMap.set idx.k3 key3 item
      | none => idx.k3 := by
  unfold indexStep
  rw [indexStepKt_k3, indexStepK4_k3]
  unfold indexStepK3
  cases itemK3Key region item with
  | none => rw [indexStepK2_k3, indexStepK1_k3]
  | some key3 =>
    by_cases h : JMap.has idx.k3 key3 <;> simp [h, indexStepK2_k3, indexStepK1_k3]

theorem indexStep_kt (region : Region) (idx : RegionIdx) (item : Item) :
    (indexStep region idx item).kt =
      match itemKtKey item with
      | some keyt =>
        if JMap.has idx.kt keyt then idx.kt else JMap.set idx.kt keyt item
      | none => idx.kt := by
  unfold indexStep
  unfold indexStepKt
  cases itemKtKey item with
  | none => rw [indexStepK4_kt, indexStepK3_kt, indexStepK2_kt, indexStepK1_kt]
  | some keyt =>
    by_cases h : JMap.has idx.kt keyt <;>
      simp [h, indexStepK4_kt, indexStepK3_kt, indexStepK2_kt, indexStepK1_kt]

theorem fold_index_get? (region : Region)
    (proj : RegionIdx → JMap Item) (keyOf : Item → Option String)
    (hstep : ∀ idx it, proj (indexStep region idx it) =
      match keyOf it with
      | some k => if JMap.has (proj idx) k then proj idx else JMap.set (proj idx) k it
      | none => proj idx)
    (arr : List Item) (idx0 : RegionIdx) (key : String) :
    JMap.get? (proj (arr.foldl (indexStep region) idx0)) key =
      match JMap.get? (proj idx0) key with
      | some v => some v
      | none => arr.find? (fun it => keyOf it = some key) := by
  induction arr generalizing idx0 with
  | nil => cases hg : JMap.get? (proj idx0) key <;> simp [hg]
  | cons it arr ih =>
    have hsome : ∀ (idx : RegionIdx) (k : String), keyOf it = some k →
        proj (indexStep region idx it) =
          if JMap.has (proj idx) k then proj idx else JMap.set (proj idx) k it := by
      intro idx k h
      rw [hstep, h]
    have hnone : ∀ idx : RegionIdx, keyOf it = none →
        proj (indexStep region idx it) = proj idx := by
      intro idx h
      rw [hstep, h]
    rw [List.foldl_cons, ih]
    cases hk : keyOf it with
    | none =>
      rw [hnone idx0 hk, List.find?_cons_of_neg _ (by simp [hk])]
    | some k1 =>
      rw [hsome idx0 k1 hk]
      by_cases hkey : k1 = key
      · subst hkey
        by_cases hhas : JMap.has (proj idx0) k1
        · rw [if_pos hhas]
          rw [JMap.has_eq_isSome_get?] at hhas
          cases hg : JMap.get? (proj idx0) k1 with
          | some v => simp [hg]
          | none => rw [hg] at hhas; simp at hhas
        · rw [if_neg hhas]
          rw [JMap.get?_set_self]
          have hg : JMap.get? (proj idx0) k1 = none := by
            rw [JMap.has_eq_isSome_get?] at hhas
            cases hg : JMap.get? (proj idx0) k1 with
            | some v => rw [hg] at hhas; simp at hhas
            | none => rfl
          rw [hg, List.find?_cons_of_pos _ (by simp [hk])]
      · have hfind : List.find? (fun i => keyOf i = some key) (it :: arr)
            = List.find? (fun i => keyOf i = some key) arr :=
          List.find?_cons_of_neg _ (by simp [hk, hkey])
        rw [hfind]
        by_cases hhas : JMap.has (proj idx0) k1
        · rw [if_pos hhas]
        · rw [if_neg hhas, JMap.get?_set_ne _ _ _ _ hkey]

end ME

/-- C8 (amended): during region-index construction each exact key (k1, k2, k3 and the
title key) maps to exactly one candidate; when two records produce the same exact
key at insertion time, the deterministic winner kept in the index is the
FIRST-inserted record (insertion is skipped when the key already exists), not the
last-written one. -/
theorem c8_exact_key_first_write (arr : List ME.Item) (region : ME.Region)
    (key : String) :
    JMap.get? (ME.buildRegionIndexes arr region).k1 key
      = arr.find? (fun it => ME.itemK1Key region it = some key) ∧
    JMap.get? (ME.buildRegionIndexes arr region).k2 key
      = arr.find? (fun it => ME.itemK2Key region it = some key) ∧
    JMap.get? (ME.buildRegionIndexes arr region).k3 key
      = arr.find? (fun it => ME.itemK3Key region it = some key) ∧
    JMap.get? (ME.buildRegionIndexes arr region).kt key
      = arr.find? (fun it => ME.itemKtKey it = some key) := by
  refine ⟨?_, ?_, ?_, ?_⟩
  · exact ME.fold_index_get? region (·.k1) (ME.itemK1Key region)
      (ME.indexStep_k1 region) arr {} key
  · exact ME.fold_index_get? region (·.k2) (ME.itemK2Key region)
      (ME.indexStep_k2 region) arr {} key
  · exact ME.fold_index_get? region (·.k3) (ME.itemK3Key region)
      (ME.indexStep_k3 region) arr {} key
  · exact ME.fold_index_get? region (·.kt) (fun it => ME.itemKtKey it)
      (ME.indexStep_kt region) arr {} key

namespace ME

/-- The collapse step never produces two adjacent dashes. -/
theorem chain'_collapse_fold (l : List Char) (acc : List Char)
    (hacc : List.Chain' (fun a b => ¬(a = '-' ∧ b = '-')) acc) :
    List.Chain' (fun a b => ¬(a = '-' ∧ b = '-'))
      (l.foldl (fun acc c =>
        if c = '-' ∧ acc.getLast? = some '-' then acc else acc ++ [c]) acc) := by
  induction l generalizing acc with
  | nil => exact hacc
  | cons c l ih =>
    rw [List.foldl_cons]
    by_cases hc : c = '-' ∧ acc.getLast? = some '-'
    · rw [if_pos hc]
      exact ih acc hacc
    · rw [if_neg hc]
      apply ih
      rw [List.chain'_append]
      refine ⟨hacc, List.chain'_singleton c, ?_⟩
      intro x hx y hy
      simp only [List.head?_cons, Option.mem_def, Option.some.injEq] at hy
      subst hy
      intro hxy
      exact hc ⟨hxy.2, by rw [Option.mem_def] at hx; rw [hx, hxy.1]⟩

theorem chain'_collapseDashes (t : String) :
    List.Chain' (fun a b => ¬(a = '-' ∧ b = '-')) (collapseDashes t).toList := by
  unfold collapseDashes
  exact chain'_collapse_fold _ [] List.chain'_nil

/-- The head after the leading-dash strip is not a dash. -/
theorem headStrip_ne_dash (L : List Char)
    (hch : List.Chain' (fun a b => ¬(a = '-' ∧ b = '-')) L) :
    ∀ d ds, (if L.head? = some '-' then L.tail else L) = d :: ds → d ≠ '-' := by
  intro d ds hd
  cases L with
  | nil =>
    simp only [List.head?_nil] at hd
    rw [if_neg (by simp)] at hd
    exact absurd hd (by simp)
  | cons a as =>
    by_cases ha : a = '-'
    · rw [List.head?_cons, if_pos (by rw [ha])] at hd
      simp only [List.tail_cons] at hd
      subst hd
      have hp := List.chain'_cons'.mp hch
      intro hdd
      exact hp.1 d (by simp) ⟨ha, hdd⟩
    · rw [List.head?_cons, if_neg (by simpa using ha)] at hd
      injection hd with h1 _
      subst h1
      exact ha

/-- The head after the trailing-dash strip is unchanged (or the list is empty). -/
theorem tailStrip_head_ne_dash (M : List Char)
    (hM : ∀ d ds, M = d :: ds → d ≠ '-') :
    ∀ c cs, (if M.getLast? = some '-' then M.dropLast else M) = c :: cs → c ≠ '-' := by
  intro c cs hc
  by_cases hlast : M.getLast? = some '-'
  · rw [if_pos hlast] at hc
    cases M with
    | nil => exact absurd hc (by simp)
    | cons d ds =>
      cases ds with
      | nil => exact absurd hc (by simp)
      | cons e es =>
        have : (d :: e :: es).dropLast = d :: (e :: es).dropLast := rfl
        rw [this] at hc
        injection hc with h1 _
        rw [← h1]
        exact hM d (e :: es) rfl
  · rw [if_neg hlast] at hc
    exact hM c cs hc

/-- A non-empty `stripEdgeDash` result of a dash-collapsed string starts with a
non-dash character. -/
theorem stripEdgeDash_head_ne_dash (t : String)
    (hch : List.Chain' (fun a b => ¬(a = '-' ∧ b = '-')) t.toList) :
    ∀ c cs, (stripEdgeDash t).toList = c :: cs → c ≠ '-' := by
  intro c cs hr
  have hr2 : (if (if t.toList.head? = some '-' then t.toList.tail
        else t.toList).getLast? = some '-'
      then (if t.toList.head? = some '-' then t.toList.tail else t.toList).dropLast
      else (if t.toList.head? = some '-' then t.toList.tail else t.toList))
      = c :: cs := hr
  exact tailStrip_head_ne_dash _ (headStrip_ne_dash t.toList hch) c cs hr2

/-- A normalized slug is non-empty and still non-empty after removing hyphens. -/
theorem normalizeSlug_good (s : JStr) (t : String) (h : normalizeSlug s = some t) :
    t ≠ "" ∧ stripDashes t ≠ "" := by
  unfold normalizeSlug at h
  by_cases hs : !s.truthy
  · rw [if_pos hs] at h; exact absurd h (by simp)
  · rw [if_neg hs] at h
    set u := stripEdgeDash (collapseDashes (dashNonAlnum
      (stripEdgeSlashes (stripProtoHost (jsToLower (jsTrim s.coerce)))))) with hu
    by_cases h0 : u = ""
    · rw [if_pos h0] at h; exact absurd h (by simp)
    · rw [if_neg h0] at h
      injection h with h
      subst h
      refine ⟨h0, ?_⟩
      have hch := chain'_collapseDashes (dashNonAlnum
        (stripEdgeSlashes (stripProtoHost (jsToLower (jsTrim s.coerce)))))
      cases hcase : u.toList with
      | nil =>
        exfalso
        exact h0 (String.ext (show u.data = ("" : String).data from hcase))
      | cons c cs =>
        have hc : c ≠ '-' := stripEdgeDash_head_ne_dash _ hch c cs hcase
        unfold stripDashes
        rw [hcase]
        intro hcontra
        have h2 : (List.filter (fun c => decide (c ≠ '-')) (c :: cs)) = [] := by
          have h3 := congrArg String.data hcontra
          exact h3
        rw [List.filter_cons_of_pos (by simp [hc])] at h2
        simp at h2

/-- Every url key the resolver computes is a well-formed slug. -/
theorem getUrlKey_good (it : Item) (k : String) (h : getUrlKey it = some k) :
    k ≠ "" ∧ stripDashes k ≠ "" := by
  unfold getUrlKey at h
  by_cases hr : (getUrlKeyRaw it).truthy
  · rw [if_pos hr] at h
    exact normalizeSlug_good _ _ h
  · rw [if_neg hr] at h
    by_cases hu : it.url.truthy
    · rw [if_pos hu] at h
      cases hseg : lastUrlSegment it.url.coerce with
      | some seg =>
        rw [hseg] at h
        replace h : (if seg ≠ "" then normalizeSlug (JStr.str seg) else none)
            = some k := h
        by_cases hne : seg ≠ ""
        · rw [if_pos hne] at h
          exact normalizeSlug_good _ _ h
        · rw [if_neg hne] at h
          exact absurd h (by simp)
      | none => rw [hseg] at h; exact absurd h (by simp)
    · rw [if_neg hu] at h
      exact absurd h (by simp)

end ME

set_option maxHeartbeats 2000000 in
/-- C7: resolution order of `tryMatch` in merge_enriched.js. For a canonical US
record with a url key, (a) in strict-slug mode the resolver is exactly the
loose-slug k4 matcher, (b) in strict mode a missing k4 bucket yields no match
(never falling back to identifier or title rules), and (c) in normal mode the
result is the first hit of the rules tried in the order k1, k2, k3, k4, title,
with no match a valid outcome. -/
theorem c7_resolution_order (idx : ME.RegionIdx) (us : ME.Item) (uk : String)
    (h : ME.getUrlKey us = some uk) :
    ME.tryMatch idx us true = ME.strictK4Match idx us ∧
    (idx.k4.get? (ME.stripDashes uk) = none → ME.tryMatch idx us true = none) ∧
    ME.tryMatch idx us false =
      ((ME.k1Match idx us).orElse fun _ =>
        (ME.k2Match idx us).orElse fun _ =>
          (ME.k3Match idx us).orElse fun _ =>
            (ME.k4Match idx us).orElse fun _ => ME.titleMatch idx us) := by
  obtain ⟨hne, hne2⟩ := ME.getUrlKey_good us uk h
  refine ⟨?_, ?_, ?_⟩
  · unfold ME.tryMatch ME.strictK4Match
    rw [h]
    simp [hne, hne2]
  · intro hk4
    unfold ME.tryMatch
    rw [h]
    simp [hne, hne2, hk4]
  · show ME.tryMatchNormal idx us = _
    simp only [ME.tryMatchNormal, ME.k1Match, ME.k2Match, ME.k3Match, ME.k4Match,
      ME.titleMatch]
    (repeat' split) <;> simp_all [Option.orElse]

/-- C7 witness: the resolution-order theorem applied to a concrete US record whose
slug matches a single JP row through the k4 index. -/
theorem c7_witness :
    ME.getUrlKey w7_us = some "halo-2-switch" ∧
    (ME.tryMatch (ME.buildRegionIndexes [w7_jp_row] ME.Region.jp) w7_us true =
        ME.strictK4Match (ME.buildRegionIndexes [w7_jp_row] ME.Region.jp) w7_us ∧
      ((ME.buildRegionIndexes [w7_jp_row] ME.Region.jp).k4.get?
          (ME.stripDashes "halo-2-switch") = none →
        ME.tryMatch (ME.buildRegionIndexes [w7_jp_row] ME.Region.jp) w7_us true
          = none) ∧
      ME.tryMatch (ME.buildRegionIndexes [w7_jp_row] ME.Region.jp) w7_us false =
        ((ME.k1Match (ME.buildRegionIndexes [w7_jp_row] ME.Region.jp) w7_us).orElse
          fun _ =>
          (ME.k2Match (ME.buildRegionIndexes [w7_jp_row] ME.Region.jp) w7_us).orElse
            fun _ =>
            (ME.k3Match (ME.buildRegionIndexes [w7_jp_row] ME.Region.jp) w7_us).orElse
              fun _ =>
              (ME.k4Match (ME.buildRegionIndexes [w7_jp_row] ME.Region.jp)
                  w7_us).orElse
                fun _ =>
                ME.titleMatch (ME.buildRegionIndexes [w7_jp_row] ME.Region.jp)
                  w7_us)) :=
  ⟨by decide,
    c7_resolution_order (ME.buildRegionIndexes [w7_jp_row] ME.Region.jp) w7_us
      "halo-2-switch" (by decide)⟩

theorem list_contains_iff (acc : List String) (k : String) :
    acc.contains k = true ↔ k ∈ acc := by
  simp [List.contains, List.elem_iff]

theorem dedupStep_of_contains (acc : List String) (k : String) (h : acc.contains k = true) :
    dedupStep acc k = acc := by unfold dedupStep; rw [if_pos h]

theorem dedupStep_of_not_contains (acc : List String) (k : String)
    (h : ¬ acc.contains k = true) : dedupStep acc k = acc ++ [k] := by
  unfold dedupStep; rw [if_neg h]

theorem dedup_foldl_prefix (l : List String) :
    ∀ acc : List String, ∃ r, l.foldl dedupStep acc = acc ++ r := by
  induction l with
  | nil => intro acc; exact ⟨[], by simp⟩
  | cons x t ih =>
    intro acc
    rw [List.foldl_cons]
    by_cases h : acc.contains x
    · rw [dedupStep_of_contains acc x h]; exact ih acc
    · rw [dedupStep_of_not_contains acc x h]
      obtain ⟨r, hr⟩ := ih (acc ++ [x])
      exact ⟨x :: r, by rw [hr]; simp⟩

theorem dedup_foldl_allSeen (l : List String) :
    ∀ acc : List String, (∀ x ∈ l, x ∈ acc) → l.foldl dedupStep acc = acc := by
  induction l with
  | nil => intro acc _; rfl
  | cons x t ih =>
    intro acc h
    rw [List.foldl_cons]
    have hx : acc.contains x = true := by
      rw [list_contains_iff]
      exact h x (by simp)
    rw [dedupStep_of_contains acc x hx]
    exact ih acc (fun y hy => h y (by simp [hy]))

theorem dedup_foldl_mem (l : List String) :
    ∀ (acc : List String) (x : String), x ∈ l.foldl dedupStep acc ↔ x ∈ acc ∨ x ∈ l := by
  induction l with
  | nil => intro acc x; simp
  | cons y t ih =>
    intro acc x
    rw [List.foldl_cons]
    by_cases h : acc.contains y
    · rw [dedupStep_of_contains acc y h]
      rw [ih acc x]
      constructor
      · rintro (hx | hx) <;> simp [hx]
      · rintro (hx | hx)
        · exact Or.inl hx
        · rcases List.mem_cons.mp hx with rfl | hx
          · exact Or.inl ((list_contains_iff acc x).mp h)
          · exact Or.inr hx
    · rw [dedupStep_of_not_contains acc y h]
      rw [ih (acc ++ [y]) x]
      simp only [List.mem_append, List.mem_singleton, List.mem_cons]
      tauto

theorem dedup_foldl_nodup (l : List String) :
    ∀ acc : List String, acc.Nodup → (l.foldl dedupStep acc).Nodup := by
  induction l with
  | nil => intro acc h; exact h
  | cons x t ih =>
    intro acc h
    rw [List.foldl_cons]
    by_cases hx : acc.contains x
    · rw [dedupStep_of_contains acc x hx]; exact ih acc h
    · rw [dedupStep_of_not_contains acc x hx]
      refine ih (acc ++ [x]) ?_
      rw [List.nodup_append]
      refine ⟨h, List.nodup_singleton x, ?_⟩
      intro a ha hax
      rcases List.mem_singleton.mp hax with rfl
      exact absurd ((list_contains_iff acc a).mpr ha) (by simpa using hx)

theorem dedup_foldl_fresh (l : List String) :
    ∀ acc : List String, (acc ++ l).Nodup → l.foldl dedupStep acc = acc ++ l := by
  induction l with
  | nil => intro acc _; simp
  | cons x t ih =>
    intro acc h
    rw [List.foldl_cons]
    have hx : ¬ acc.contains x = true := by
      rw [List.nodup_append] at h
      intro hc
      exact h.2.2 ((list_contains_iff acc x).mp hc) (by simp)
    rw [dedupStep_of_not_contains acc x hx]
    have h' : ((acc ++ [x]) ++ t).Nodup := by simpa using h
    rw [ih (acc ++ [x]) h']
    simp

theorem jsSetOfList_nodup (l : List String) : (jsSetOfList l).Nodup :=
  dedup_foldl_nodup l [] List.nodup_nil

theorem jsSetOfList_mem (l : List String) (x : String) : x ∈ jsSetOfList l ↔ x ∈ l := by
  unfold jsSetOfList
  rw [dedup_foldl_mem]
  simp

theorem jsSetOfList_stable (A B : List String) :
    jsSetOfList (A ++ jsSetOfList (A ++ B)) = jsSetOfList (A ++ B) := by
  unfold jsSetOfList
  rw [List.foldl_append, List.foldl_append]
  obtain ⟨r, hr⟩ := dedup_foldl_prefix B (A.foldl dedupStep [])
  rw [hr]
  rw [List.foldl_append]
  rw [dedup_foldl_allSeen _ _ (fun x hx => hx)]
  have hnd : ((A.foldl dedupStep []) ++ r).Nodup := by
    rw [← hr]
    exact dedup_foldl_nodup B _ (dedup_foldl_nodup A [] List.nodup_nil)
  exact dedup_foldl_fresh r _ hnd

namespace JMap

theorem mem_set_cases {α : Type} (m : JMap α) (k : String) (v : α) (q : String × α)
    (h : q ∈ set m k v) : q ∈ m ∨ q = (k, v) := by
  unfold set at h
  split at h
  · rcases List.mem_map.mp h with ⟨p, hp, hq⟩
    by_cases hpk : p.1 = k
    · right; rw [← hq]; simp [hpk]
    · left; rw [← hq]; simpa [hpk] using hp
  · rcases List.mem_append.mp h with hq | hq
    · exact Or.inl hq
    · exact Or.inr (List.mem_singleton.mp hq)

theorem has_set {α : Type} (m : JMap α) (k : String) (v : α) (key : String) :
    has (set m k v) key = (has m key || decide (key = k)) := by
  by_cases hk : k = key
  · subst hk
    rw [has_eq_isSome_get?, get?_set_self]
    simp
  · rw [has_eq_isSome_get?, get?_set_ne m k v key hk, ← has_eq_isSome_get?]
    have : ¬ (key = k) := fun h => hk h.symm
    simp [this]

end JMap

theorem keyBy_fold_pairs {α : Type} (f : α → String) (l : List α) :
    ∀ (m : JMap α), ∀ q ∈ l.foldl (fun m g => if f g = "" then m else m.set (f g) g) m,
      q ∈ m ∨ (q.1 = f q.2 ∧ q.1 ≠ "" ∧ q.2 ∈ l) := by
  induction l with
  | nil => intro m q hq; exact Or.inl hq
  | cons g t ih =>
    intro m q hq
    rw [List.foldl_cons] at hq
    rcases ih _ q hq with hq' | hq'
    · by_cases hg : f g = ""
      · rw [if_pos hg] at hq'; exact Or.inl hq'
      · rw [if_neg hg] at hq'
        rcases JMap.mem_set_cases m (f g) g q hq' with hq'' | hq''
        · exact Or.inl hq''
        · right
          rw [hq'']
          exact ⟨rfl, hg, by simp⟩
    · right
      exact ⟨hq'.1, hq'.2.1, by simp [hq'.2.2]⟩

theorem keyBy_pairs {α : Type} (f : α → String) (l : List α) (q : String × α)
    (h : q ∈ keyBy f l) : q.1 = f q.2 ∧ q.1 ≠ "" ∧ q.2 ∈ l := by
  rcases keyBy_fold_pairs f l [] q h with hq | hq
  · simp at hq
  · exact hq

theorem keyBy_get?_sound {α : Type} (f : α → String) (l : List α) (k : String) (g : α)
    (h : JMap.get? (keyBy f l) k = some g) : f g = k ∧ k ≠ "" ∧ g ∈ l := by
  unfold JMap.get? at h
  cases hf : List.find? (fun p => p.1 = k) (keyBy f l) with
  | none => rw [hf] at h; simp at h
  | some p =>
    rw [hf] at h
    replace h : some p.2 = some g := h
    have hp := List.mem_of_find?_eq_some hf
    have hpred := List.find?_some hf
    have hk : p.1 = k := by simpa using hpred
    obtain ⟨h1, h2, h3⟩ := keyBy_pairs f l p hp
    cases h
    exact ⟨by rw [← h1, hk], by rw [← hk]; exact h2, h3⟩

theorem keys_keyBy_ne {α : Type} (f : α → String) (l : List α) (k : String)
    (h : k ∈ JMap.keys (keyBy f l)) : k ≠ "" := by
  rcases List.mem_map.mp h with ⟨q, hq, hk⟩
  rw [← hk]
  exact (keyBy_pairs f l q hq).2.1

theorem keyBy_fold_has_persist {α : Type} (f : α → String) (l : List α) (key : String) :
    ∀ (m : JMap α), JMap.has m key = true →
      JMap.has (l.foldl (fun m g => if f g = "" then m else m.set (f g) g) m) key = true := by
  induction l with
  | nil => intro m h; exact h
  | cons g t ih =>
    intro m h
    rw [List.foldl_cons]
    refine ih _ ?_
    by_cases hg : f g = ""
    · rw [if_pos hg]; exact h
    · rw [if_neg hg, JMap.has_set, h]; rfl

theorem keyBy_fold_has_of_mem {α : Type} (f : α → String) (l : List α) (g : α)
    (hg : g ∈ l) (hne : f g ≠ "") :
    ∀ (m : JMap α),
      JMap.has (l.foldl (fun m g => if f g = "" then m else m.set (f g) g) m) (f g) = true := by
  induction l with
  | nil => simp at hg
  | cons h t ih =>
    intro m
    rw [List.foldl_cons]
    rcases List.mem_cons.mp hg with rfl | hg'
    · refine keyBy_fold_has_persist f t (f g) _ ?_
      rw [if_neg hne, JMap.has_set]
      simp
    · exact ih hg' _

theorem keyBy_has_of_mem {α : Type} (f : α → String) (l : List α) (g : α)
    (hg : g ∈ l) (hne : f g ≠ "") : JMap.has (keyBy f l) (f g) = true :=
  keyBy_fold_has_of_mem f l g hg hne []

theorem has_append_single {α : Type} (m : JMap α) (k : String) (v : α) (key : String) :
    JMap.has (m ++ [(k, v)]) key = (JMap.has m key || decide (k = key)) := by
  rw [JMap.has_eq_isSome_get?, JMap.get?_append_single]
  cases hg : JMap.get? m key with
  | some u => rw [JMap.has_eq_isSome_get?, hg]; rfl
  | none =>
    rw [JMap.has_eq_isSome_get?, hg]
    by_cases hk : k = key <;> simp [hk]

theorem keyBy_fold_eq_map {α : Type} (f : α → String) (l : List α)
    (hne : ∀ g ∈ l, f g ≠ "") (hnd : (l.map f).Nodup) :
    ∀ (m : JMap α), (∀ g ∈ l, JMap.has m (f g) = false) →
      l.foldl (fun m g => if f g = "" then m else m.set (f g) g) m
        = m ++ l.map (fun g => (f g, g)) := by
  induction l with
  | nil => intro m _; simp
  | cons g t ih =>
    intro m hfresh
    rw [List.foldl_cons]
    have hg : f g ≠ "" := hne g (by simp)
    rw [if_neg hg]
    have hset : m.set (f g) g = m ++ [(f g, g)] := by
      unfold JMap.set
      rw [hfresh g (by simp)]
      rfl
    rw [hset]
    rw [List.map_cons] at hnd
    have hnd' := (List.nodup_cons.mp hnd).2
    have hgt : f g ∉ t.map f := (List.nodup_cons.mp hnd).1
    rw [ih (fun x hx => hne x (by simp [hx])) hnd' (m ++ [(f g, g)]) ?_]
    · simp
    · intro x hx
      rw [has_append_single]
      rw [hfresh x (by simp [hx])]
      have : f g ≠ f x := by
        intro hfg
        exact hgt (by rw [hfg]; exact List.mem_map_of_mem f hx)
      simp [this]

theorem keyBy_eq_map {α : Type} (f : α → String) (l : List α)
    (hne : ∀ g ∈ l, f g ≠ "") (hnd : (l.map f).Nodup) :
    keyBy f l = l.map (fun g => (f g, g)) := by
  unfold keyBy
  rw [keyBy_fold_eq_map f l hne hnd [] (fun g _ => rfl)]
  rfl

theorem get?_map_pair {α : Type} (f : α → String) (l : List α) (k : String) :
    JMap.get? (l.map (fun g => (f g, g))) k = l.find? (fun g => f g = k) := by
  induction l with
  | nil => rfl
  | cons g t ih =>
    rw [List.map_cons]
    by_cases hk : f g = k
    · unfold JMap.get?
      rw [List.find?_cons_of_pos _ (by simpa using hk)]
      rw [List.find?_cons_of_pos _ (by simpa using hk)]
      rfl
    · unfold JMap.get?
      rw [List.find?_cons_of_neg _ (by simpa using hk)]
      rw [List.find?_cons_of_neg _ (by simpa using hk)]
      exact ih

theorem keys_map_pair {α : Type} (f : α → String) (l : List α) :
    JMap.keys (l.map (fun g => (f g, g))) = l.map f := by
  unfold JMap.keys
  rw [List.map_map]
  rfl

theorem find?_map_key {α : Type} (h : String → α) (f : α → String) (S : List String)
    (hS : ∀ id ∈ S, f (h id) = id) (id : String) (hid : id ∈ S) (hnd : S.Nodup) :
    (S.map h).find? (fun g => f g = id) = some (h id) := by
  induction S with
  | nil => simp at hid
  | cons s t ih =>
    rw [List.map_cons]
    rcases List.mem_cons.mp hid with rfl | hid'
    · rw [List.find?_cons_of_pos _ (by simp [hS id (by simp)])]
    · have hsne : s ≠ id := by
        rintro rfl
        exact (List.nodup_cons.mp hnd).1 hid'
      rw [List.find?_cons_of_neg _ (by simp [hS s (by simp), hsne])]
      exact ih (fun x hx => hS x (by simp [hx])) hid' (List.nodup_cons.mp hnd).2

theorem zipWith_self_of_id {α : Type} (f : α → α → α) (l : List α)
    (h : ∀ a ∈ l, f a a = a) : List.zipWith f l l = l := by
  induction l with
  | nil => rfl
  | cons a t ih =>
    rw [List.zipWith_cons_cons]
    rw [h a (by simp), ih (fun x hx => h x (by simp [hx]))]

theorem jsOr_self_jsOr (a b : JStr) : a.jsOr (a.jsOr b) = a.jsOr b := by
  by_cases h : a.truthy
  · rw [JStr.jsOr_of_truthy _ h, JStr.jsOr_of_truthy _ h]
  · have h' : a.truthy = false := by simpa using h
    rw [JStr.jsOr_of_falsy _ h', JStr.jsOr_of_falsy _ h']

theorem lastSeen_truthy (x : JStr) (t : String) (ht : t ≠ "") :
    (x.jsOr (.str t)).truthy = true := by
  by_cases h : x.truthy
  · rw [JStr.jsOr_of_truthy _ h]; exact h
  · have h' : x.truthy = false := by simpa using h
    rw [JStr.jsOr_of_falsy _ h']
    simp [JStr.truthy, ht]

theorem firstSeen_truthy (x : JStr) (t : String) (ht : t ≠ "") :
    (x.jsOr (x.jsOr (.str t))).truthy = true := by
  rw [jsOr_self_jsOr]
  exact lastSeen_truthy x t ht

theorem ite_self_nested {α : Type} (c : Prop) [Decidable c] (x y : α) :
    (if c then x else if c then x else y) = if c then x else y := by
  by_cases h : c <;> simp [h]

theorem genres_restep (bg pg : Option (List String)) :
    (match bg with
      | some l => if l ≠ [] then some l
          else some ((match bg with
            | some l => if l ≠ [] then some l else some (pg.getD [])
            | none => some (pg.getD [])).getD [])
      | none => some ((match bg with
          | some l => if l ≠ [] then some l else some (pg.getD [])
          | none => some (pg.getD [])).getD []))
    = (match bg with
        | some l => if l ≠ [] then some l else some (pg.getD [])
        | none => some (pg.getD [])) := by
  cases bg with
  | none => rfl
  | some l =>
    by_cases hl : l = [] <;> simp [hl]

namespace HK

set_option maxHeartbeats 1000000 in
theorem mergeRow_remerge (b? p? : Option Row) (t1 t2 : String) (ht1 : t1 ≠ "") :
    mergeRow b? (some (mergeRow b? p? t1)) t2 = restampActive t2 (mergeRow b? p? t1) := by
  cases b? with
  | some b =>
    unfold restampActive
    have hact : (mergeRow (some b) p? t1).active_in_base = true := rfl
    rw [if_pos hact]
    unfold mergeRow
    simp only [Option.getD, Option.isSome, Row.mk.injEq]
    refine ⟨?_, ?_, ?_, ?_, ?_, ?_, ?_, ?_, ?_, ?_, ?_, ?_, ?_, ?_, ?_, ?_, ?_, ?_⟩
    · exact pick_absorb _ _ _
    · exact trivial
    · exact trivial
    · exact ite_self_nested _ _ _
    · exact ite_self_nested _ _ _
    · exact pickCode_idem_outer _ _
    · exact pick_idem_outer _ _
    · exact pick_idem_outer _ _
    · exact pick_idem_outer _ _
    · exact pick_idem_outer _ _
    · exact pick_idem_outer _ _
    · exact pick_idem_outer _ _
    · exact pick_idem_outer _ _
    · exact genres_restep _ _
    · exact trivial
    · rw [jsOr_self_jsOr]
      exact JStr.jsOr_of_truthy _ (firstSeen_truthy _ t1 ht1)
    · simp
    · exact trivial
  | none =>
    unfold restampActive
    have hact : (mergeRow none p? t1).active_in_base = false := rfl
    rw [if_neg (by rw [hact]; exact Bool.false_ne_true)]
    unfold mergeRow
    simp only [Option.getD, Option.isSome, Row.mk.injEq]
    refine ⟨?_, ?_, ?_, ?_, ?_, ?_, ?_, ?_, ?_, ?_, ?_, ?_, ?_, ?_, ?_, ?_, ?_, ?_⟩
    · exact pick_absorb _ _ _
    · exact trivial
    · exact trivial
    · exact ite_self_nested _ _ _
    · exact ite_self_nested _ _ _
    · exact pickCode_idem_outer _ _
    · exact pick_idem_outer _ _
    · exact pick_idem_outer _ _
    · exact pick_idem_outer _ _
    · exact pick_idem_outer _ _
    · exact pick_idem_outer _ _
    · exact pick_idem_outer _ _
    · exact pick_idem_outer _ _
    · exact trivial
    · exact trivial
    · rw [jsOr_self_jsOr]
      exact JStr.jsOr_of_truthy _ (firstSeen_truthy _ t1 ht1)
    · exact JStr.jsOr_of_truthy _ (lastSeen_truthy _ t1 ht1)
    · exact trivial


theorem restampActive_mergeRow_self (b? p? : Option Row) (t : String) :
    restampActive t (mergeRow b? p? t) = mergeRow b? p? t := by
  cases b? with
  | some b =>
    unfold restampActive
    have hact : (mergeRow (some b) p? t).active_in_base = true := rfl
    rw [if_pos hact]
    have hls : (mergeRow (some b) p? t).last_seen_at = .str t := rfl
    unfold mergeRow
    simp only [Option.getD, Option.isSome, Row.mk.injEq]
    refine ⟨trivial, trivial, trivial, trivial, trivial, trivial, trivial, trivial,
      trivial, trivial, trivial, trivial, trivial, trivial, trivial, trivial, ?_, trivial⟩
    simp
  | none =>
    unfold restampActive
    have hact : (mergeRow none p? t).active_in_base = false := rfl
    rw [if_neg (by rw [hact]; exact Bool.false_ne_true)]

theorem cleanIds_mergeRow (b? p? : Option Row) (t : String)
    (hb : ∀ b ∈ b?, cleanIds b) (hp : ∀ p ∈ p?, cleanIds p) :
    cleanIds (mergeRow b? p? t) := by
  have hbc : cleanIds (b?.getD {}) := by
    cases b? with
    | some b => exact hb b rfl
    | none => exact ⟨trivial, trivial, trivial⟩
  have hpc : cleanIds (p?.getD {}) := by
    cases p? with
    | some p => exact hp p rfl
    | none => exact ⟨trivial, trivial, trivial⟩
  obtain ⟨hb1, hb2, hb3⟩ := hbc
  obtain ⟨hp1, hp2, hp3⟩ := hpc
  refine ⟨?_, hp2, hp3⟩
  show JStr.clean (pick (b?.getD {}).nsuid_hk
    (pick (p?.getD {}).nsuid_hk
      ((b?.getD {}).nsuid.jsOr ((b?.getD {}).nsuid_txt.jsOr
        ((p?.getD {}).nsuid.jsOr (p?.getD {}).nsuid_txt)))))
  exact JStr.clean_pick hb1 (JStr.clean_pick hp1
    (JStr.clean_jsOr hb2 (JStr.clean_jsOr hb3 (JStr.clean_jsOr hp2 hp3))))


theorem coerce_of_falsy (v : JStr) (h : v.truthy = false) : v.coerce = "" := by
  cases v with
  | undef => rfl
  | null => rfl
  | str s => simpa [JStr.truthy, JStr.coerce] using h

theorem undef_truthy : JStr.undef.truthy = false := rfl

theorem undef_trimNE : JStr.undef.trimNE = false := by decide

set_option maxHeartbeats 4000000 in
theorem idOf_mergeRow (b? p? : Option Row) (t : String) (id : String)
    (hb : ∀ b ∈ b?, cleanIds b ∧ idOf b = id)
    (hp : ∀ p ∈ p?, cleanIds p ∧ idOf p = id)
    (hor : b?.isSome ∨ p?.isSome) (hid : id ≠ "") :
    idOf (mergeRow b? p? t) = id := by
  cases b? with
  | none =>
    cases p? with
    | none => simp at hor
    | some p =>
      obtain ⟨⟨c1, c2, c3⟩, hidp⟩ := hp p rfl
      have e1 : p.nsuid_hk.trimNE = p.nsuid_hk.truthy := JStr.clean_trimNE_eq_truthy _ c1
      have e2 : p.nsuid.trimNE = p.nsuid.truthy := JStr.clean_trimNE_eq_truthy _ c2
      have e3 : p.nsuid_txt.trimNE = p.nsuid_txt.truthy := JStr.clean_trimNE_eq_truthy _ c3
      replace hidp : (p.nsuid_hk.jsOr (p.nsuid.jsOr p.nsuid_txt)).coerce = id := hidp
      show ((pick JStr.undef (pick p.nsuid_hk (JStr.undef.jsOr (JStr.undef.jsOr
          (p.nsuid.jsOr p.nsuid_txt))))).jsOr (p.nsuid.jsOr p.nsuid_txt)).coerce = id
      by_cases h1 : p.nsuid_hk.truthy <;> by_cases h2 : p.nsuid.truthy <;>
        by_cases h3 : p.nsuid_txt.truthy <;>
        simp_all [JStr.jsOr_of_truthy, JStr.jsOr_of_falsy, pick_of_left, pick_of_right,
          pick_of_neither, undef_truthy, undef_trimNE, coerce_of_falsy,
          lastSeen_truthy, jsOr_self_jsOr]
  | some b =>
    obtain ⟨⟨c1, c2, c3⟩, hidb⟩ := hb b rfl
    have e1 : b.nsuid_hk.trimNE = b.nsuid_hk.truthy := JStr.clean_trimNE_eq_truthy _ c1
    have e2 : b.nsuid.trimNE = b.nsuid.truthy := JStr.clean_trimNE_eq_truthy _ c2
    have e3 : b.nsuid_txt.trimNE = b.nsuid_txt.truthy := JStr.clean_trimNE_eq_truthy _ c3
    replace hidb : (b.nsuid_hk.jsOr (b.nsuid.jsOr b.nsuid_txt)).coerce = id := hidb
    cases p? with
    | none =>
      show ((pick b.nsuid_hk (pick JStr.undef (b.nsuid.jsOr (b.nsuid_txt.jsOr
          (JStr.undef.jsOr JStr.undef))))).jsOr (JStr.undef.jsOr JStr.undef)).coerce = id
      by_cases h1 : b.nsuid_hk.truthy <;> by_cases h2 : b.nsuid.truthy <;>
        by_cases h3 : b.nsuid_txt.truthy <;>
        simp_all [JStr.jsOr_of_truthy, JStr.jsOr_of_falsy, pick_of_left, pick_of_right,
          pick_of_neither, undef_truthy, undef_trimNE, coerce_of_falsy]
    | some p =>
      obtain ⟨⟨d1, d2, d3⟩, hidp⟩ := hp p rfl
      have f1 : p.nsuid_hk.trimNE = p.nsuid_hk.truthy := JStr.clean_trimNE_eq_truthy _ d1
      have f2 : p.nsuid.trimNE = p.nsuid.truthy := JStr.clean_trimNE_eq_truthy _ d2
      have f3 : p.nsuid_txt.trimNE = p.nsuid_txt.truthy := JStr.clean_trimNE_eq_truthy _ d3
      replace hidp : (p.nsuid_hk.jsOr (p.nsuid.jsOr p.nsuid_txt)).coerce = id := hidp
      show ((pick b.nsuid_hk (pick p.nsuid_hk (b.nsuid.jsOr (b.nsuid_txt.jsOr
          (p.nsuid.jsOr p.nsuid_txt))))).jsOr (p.nsuid.jsOr p.nsuid_txt)).coerce = id
      by_cases h1 : b.nsuid_hk.truthy <;> by_cases h2 : b.nsuid.truthy <;>
        by_cases h3 : b.nsuid_txt.truthy <;> by_cases g1 : p.nsuid_hk.truthy <;>
        by_cases g2 : p.nsuid.truthy <;> by_cases g3 : p.nsuid_txt.truthy <;>
        simp_all [JStr.jsOr_of_truthy, JStr.jsOr_of_falsy, pick_of_left, pick_of_right,
          pick_of_neither, undef_truthy, undef_trimNE, coerce_of_falsy]


theorem unionMerge_eq (baseGames E : List Row) (t : String) :
    unionMerge baseGames E t
      = (jsSetOfList (JMap.keys (inBaseMap baseGames) ++ JMap.keys (byNsuidMap E))).map
          (fun id => mergeRow (JMap.get? (inBaseMap baseGames) id)
            (JMap.get? (byNsuidMap E) id) t) := rfl

theorem unionMerge_S_ne (baseGames E : List Row) (id : String)
    (h : id ∈ jsSetOfList (JMap.keys (inBaseMap baseGames) ++ JMap.keys (byNsuidMap E))) :
    id ≠ "" := by
  rw [jsSetOfList_mem] at h
  rcases List.mem_append.mp h with h' | h'
  · exact keys_keyBy_ne idOf baseGames id h'
  · exact keys_keyBy_ne idOf E id h'

theorem unionMerge_row_id (baseGames E : List Row) (t : String)
    (hbase : ∀ g ∈ baseGames, cleanIds g) (hE : ∀ g ∈ E, cleanIds g) (id : String)
    (h : id ∈ jsSetOfList (JMap.keys (inBaseMap baseGames) ++ JMap.keys (byNsuidMap E))) :
    idOf (mergeRow (JMap.get? (inBaseMap baseGames) id) (JMap.get? (byNsuidMap E) id) t)
      = id := by
  have hid : id ≠ "" := unionMerge_S_ne baseGames E id h
  refine idOf_mergeRow _ _ t id ?_ ?_ ?_ hid
  · intro b hbm
    obtain ⟨hf, _, hmem⟩ := keyBy_get?_sound idOf baseGames id b hbm
    exact ⟨hbase b hmem, hf⟩
  · intro p hpm
    obtain ⟨hf, _, hmem⟩ := keyBy_get?_sound idOf E id p hpm
    exact ⟨hE p hmem, hf⟩
  · rw [jsSetOfList_mem] at h
    rcases List.mem_append.mp h with h' | h'
    · left
      rw [JMap.mem_keys_iff_has] at h'
      rw [JMap.has_eq_isSome_get?] at h'
      exact h'
    · right
      rw [JMap.mem_keys_iff_has] at h'
      rw [JMap.has_eq_isSome_get?] at h'
      exact h'

theorem unionMerge_map_idOf (baseGames E : List Row) (t : String)
    (hbase : ∀ g ∈ baseGames, cleanIds g) (hE : ∀ g ∈ E, cleanIds g) :
    (unionMerge baseGames E t).map idOf
      = jsSetOfList (JMap.keys (inBaseMap baseGames) ++ JMap.keys (byNsuidMap E)) := by
  rw [unionMerge_eq, List.map_map]
  refine Eq.trans (List.map_congr_left ?_) (List.map_id _)
  intro id h
  exact unionMerge_row_id baseGames E t hbase hE id h

theorem unionMerge_clean (baseGames E : List Row) (t : String)
    (hbase : ∀ g ∈ baseGames, cleanIds g) (hE : ∀ g ∈ E, cleanIds g) :
    ∀ g ∈ unionMerge baseGames E t, cleanIds g := by
  intro g hg
  rw [unionMerge_eq] at hg
  rcases List.mem_map.mp hg with ⟨id, _, rfl⟩
  refine cleanIds_mergeRow _ _ t ?_ ?_
  · intro b hbm
    obtain ⟨_, _, hmem⟩ := keyBy_get?_sound idOf baseGames id b hbm
    exact hbase b hmem
  · intro p hpm
    obtain ⟨_, _, hmem⟩ := keyBy_get?_sound idOf E id p hpm
    exact hE p hmem

theorem unionMerge_rerun (baseGames E : List Row) (t1 t2 : String)
    (hbase : ∀ g ∈ baseGames, cleanIds g) (hE : ∀ g ∈ E, cleanIds g) (ht1 : t1 ≠ "") :
    unionMerge baseGames (unionMerge baseGames E t1) t2
      = (unionMerge baseGames E t1).map (restampActive t2) := by
  have hids := unionMerge_map_idOf baseGames E t1 hbase hE
  have hSnd : (jsSetOfList (JMap.keys (inBaseMap baseGames)
      ++ JMap.keys (byNsuidMap E))).Nodup := jsSetOfList_nodup _
  have hMne : ∀ g ∈ unionMerge baseGames E t1, idOf g ≠ "" := by
    intro g hg
    rw [unionMerge_eq] at hg
    rcases List.mem_map.mp hg with ⟨id, hid, rfl⟩
    rw [unionMerge_row_id baseGames E t1 hbase hE id hid]
    exact unionMerge_S_ne baseGames E id hid
  have hby2 : byNsuidMap (unionMerge baseGames E t1)
      = (unionMerge baseGames E t1).map (fun g => (idOf g, g)) := by
    refine keyBy_eq_map idOf _ hMne ?_
    rw [hids]
    exact hSnd
  have hkeys2 : JMap.keys (byNsuidMap (unionMerge baseGames E t1))
      = jsSetOfList (JMap.keys (inBaseMap baseGames) ++ JMap.keys (byNsuidMap E)) := by
    rw [hby2, keys_map_pair, hids]
  rw [unionMerge_eq baseGames (unionMerge baseGames E t1) t2, hkeys2, jsSetOfList_stable]
  have hget2 : ∀ id ∈ jsSetOfList (JMap.keys (inBaseMap baseGames)
      ++ JMap.keys (byNsuidMap E)),
      JMap.get? (byNsuidMap (unionMerge baseGames E t1)) id
        = some (mergeRow (JMap.get? (inBaseMap baseGames) id)
            (JMap.get? (byNsuidMap E) id) t1) := by
    intro id hid
    rw [hby2, get?_map_pair, unionMerge_eq]
    exact find?_map_key _ idOf _
      (fun x hx => unionMerge_row_id baseGames E t1 hbase hE x hx) id hid hSnd
  rw [unionMerge_eq baseGames E t1, List.map_map]
  refine List.map_congr_left ?_
  intro id hid
  show mergeRow (JMap.get? (inBaseMap baseGames) id)
      (JMap.get? (byNsuidMap (unionMerge baseGames E t1)) id) t2
    = restampActive t2 (mergeRow (JMap.get? (inBaseMap baseGames) id)
        (JMap.get? (byNsuidMap E) id) t1)
  rw [hget2 id hid]
  exact mergeRow_remerge _ _ t1 t2 ht1


theorem unionMerge_restamp_fix (baseGames E : List Row) (t : String) :
    (unionMerge baseGames E t).map (restampActive t) = unionMerge baseGames E t := by
  rw [unionMerge_eq, List.map_map]
  refine List.map_congr_left ?_
  intro id h
  exact restampActive_mergeRow_self _ _ t

theorem run_eq_unionMerge_of_empty (baseGames E : List Row)
    (oracle : String → CodeResult) (platOracle : String → JStr) (t : String)
    (h1 : toProcessCode (unionMerge baseGames E t) = [])
    (h2 : toProcessPlatformOnly (unionMerge baseGames E t) = []) :
    run baseGames E oracle platOracle t = unionMerge baseGames E t := by
  unfold toProcessCode at h1
  unfold toProcessPlatformOnly at h2
  rw [List.filter_eq_nil_iff] at h1 h2
  show List.zipWith _ (unionMerge baseGames E t)
    ((unionMerge baseGames E t).map _) = unionMerge baseGames E t
  rw [List.zipWith_map_right]
  have : ∀ g ∈ unionMerge baseGames E t,
      (fun g0 g1 => if toProcessPlatformOnlyPred g0 = true
          then applyPlat g1 (platOracle (idOf g0)) t else g1) g
        ((fun g => if toProcessCodePred g = true
          then applyCode g (oracle (idOf g)) t else g) g) = g := by
    intro g hg
    have hc : ¬ toProcessCodePred g = true := by simpa using h1 g hg
    have hp : ¬ toProcessPlatformOnlyPred g = true := by simpa using h2 g hg
    simp only [if_neg hc, if_neg hp]
  exact zipWith_self_of_id _ _ this

end HK

/-- C2 (amended): rerunning the HK engine's union merge on its own output with an
unchanged base restamps `last_seen_at` on active rows and changes nothing else;
within the same timestamp the restamp is the identity (so same-day reruns are
byte-identical); and whenever the rerun's two fetch worklists are empty the whole
second run equals the restamped first master. -/
theorem c2_rerun_bookkeeping (baseGames E : List HK.Row) (t1 t2 : String)
    (oracle : String → HK.CodeResult) (platOracle : String → JStr)
    (hbase : ∀ g ∈ baseGames, HK.cleanIds g) (hE : ∀ g ∈ E, HK.cleanIds g)
    (ht1 : t1 ≠ "") :
    HK.unionMerge baseGames (HK.unionMerge baseGames E t1) t2
      = (HK.unionMerge baseGames E t1).map (HK.restampActive t2) ∧
    (HK.unionMerge baseGames E t1).map (HK.restampActive t1)
      = HK.unionMerge baseGames E t1 ∧
    (HK.toProcessCode (HK.unionMerge baseGames (HK.unionMerge baseGames E t1) t2) = [] →
      HK.toProcessPlatformOnly
        (HK.unionMerge baseGames (HK.unionMerge baseGames E t1) t2) = [] →
      HK.run baseGames (HK.unionMerge baseGames E t1) oracle platOracle t2
        = (HK.unionMerge baseGames E t1).map (HK.restampActive t2)) := by
  refine ⟨HK.unionMerge_rerun baseGames E t1 t2 hbase hE ht1,
    HK.unionMerge_restamp_fix baseGames E t1, ?_⟩
  intro h1 h2
  rw [HK.run_eq_unionMerge_of_empty baseGames _ oracle platOracle t2 h1 h2]
  exact HK.unionMerge_rerun baseGames E t1 t2 hbase hE ht1

/-- C2 witness: the amended rerun theorem at the concrete one-row scenario. -/
theorem c2_witness :
    (∀ g ∈ [c2_base], HK.cleanIds g) ∧ (∀ g ∈ [c2_prior], HK.cleanIds g) ∧
    "2025-10-01T00:00:00.000Z" ≠ "" ∧
    (HK.unionMerge [c2_base]
        (HK.unionMerge [c2_base] [c2_prior] "2025-10-01T00:00:00.000Z")
        "2025-10-02T00:00:00.000Z"
      = (HK.unionMerge [c2_base] [c2_prior] "2025-10-01T00:00:00.000Z").map
          (HK.restampActive "2025-10-02T00:00:00.000Z") ∧
    (HK.unionMerge [c2_base] [c2_prior] "2025-10-01T00:00:00.000Z").map
        (HK.restampActive "2025-10-01T00:00:00.000Z")
      = HK.unionMerge [c2_base] [c2_prior] "2025-10-01T00:00:00.000Z" ∧
    (HK.toProcessCode (HK.unionMerge [c2_base]
        (HK.unionMerge [c2_base] [c2_prior] "2025-10-01T00:00:00.000Z")
        "2025-10-02T00:00:00.000Z") = [] →
      HK.toProcessPlatformOnly (HK.unionMerge [c2_base]
        (HK.unionMerge [c2_base] [c2_prior] "2025-10-01T00:00:00.000Z")
        "2025-10-02T00:00:00.000Z") = [] →
      HK.run [c2_base] (HK.unionMerge [c2_base] [c2_prior] "2025-10-01T00:00:00.000Z")
          c2_oracle c2_platOracle "2025-10-02T00:00:00.000Z"
        = (HK.unionMerge [c2_base] [c2_prior] "2025-10-01T00:00:00.000Z").map
            (HK.restampActive "2025-10-02T00:00:00.000Z"))) :=
  ⟨by decide, by decide, by decide,
    c2_rerun_bookkeeping [c2_base] [c2_prior] "2025-10-01T00:00:00.000Z"
      "2025-10-02T00:00:00.000Z" c2_oracle c2_platOracle
      (by decide) (by decide) (by decide)⟩

theorem zipWith_self_eq_map {α β : Type} (f : α → α → β) (l : List α) :
    List.zipWith f l l = l.map (fun a => f a a) := by
  induction l with
  | nil => rfl
  | cons a t ih => rw [List.zipWith_cons_cons, ih]; rfl

namespace HK

theorem run_eq_map (baseGames E : List Row) (oracle : String → CodeResult)
    (platOracle : String → JStr) (t : String) :
    run baseGames E oracle platOracle t
      = (unionMerge baseGames E t).map (fun g =>
          if toProcessPlatformOnlyPred g = true
            then applyPlat (if toProcessCodePred g = true
                then applyCode g (oracle (idOf g)) t else g) (platOracle (idOf g)) t
            else (if toProcessCodePred g = true
                then applyCode g (oracle (idOf g)) t else g)) := by
  show List.zipWith _ (unionMerge baseGames E t)
    ((unionMerge baseGames E t).map _) = _
  rw [List.zipWith_map_right, zipWith_self_eq_map]

theorem masterIds_map_of_id_preserving (l : List Row) (φ : Row → Row)
    (h : ∀ g, idOf (φ g) = idOf g) : masterIds (l.map φ) = masterIds l := by
  unfold masterIds
  rw [List.map_map]
  have he : List.map (idOf ∘ φ) l = List.map idOf l :=
    List.map_congr_left (fun g _ => h g)
  rw [he]

theorem masterIds_unionMerge_superset (baseGames E : List Row) (t : String)
    (hbase : ∀ g ∈ baseGames, cleanIds g) (hE : ∀ g ∈ E, cleanIds g) :
    masterIds E ⊆ masterIds (unionMerge baseGames E t) := by
  intro id hid
  unfold masterIds at hid ⊢
  rw [List.mem_filter] at hid ⊢
  obtain ⟨hmem, hne⟩ := hid
  rcases List.mem_map.mp hmem with ⟨g, hg, rfl⟩
  have hne' : idOf g ≠ "" := by simpa using hne
  have hhas : JMap.has (byNsuidMap E) (idOf g) = true :=
    keyBy_has_of_mem idOf E g hg hne'
  have hkeys : idOf g ∈ JMap.keys (byNsuidMap E) :=
    (JMap.mem_keys_iff_has _ _).mpr hhas
  refine ⟨?_, hne⟩
  rw [unionMerge_map_idOf baseGames E t hbase hE]
  rw [jsSetOfList_mem]
  exact List.mem_append.mpr (Or.inr hkeys)

theorem masterIds_run_superset (baseGames E : List Row) (oracle : String → CodeResult)
    (platOracle : String → JStr) (t : String)
    (hbase : ∀ g ∈ baseGames, cleanIds g) (hE : ∀ g ∈ E, cleanIds g) :
    masterIds E ⊆ masterIds (run baseGames E oracle platOracle t) := by
  rw [run_eq_map]
  rw [masterIds_map_of_id_preserving]
  · exact masterIds_unionMerge_superset baseGames E t hbase hE
  · intro g
    by_cases h1 : toProcessCodePred g = true <;>
      by_cases h2 : toProcessPlatformOnlyPred g = true <;>
      simp only [h1, h2, if_true, if_false] <;> rfl

end HK

namespace KR

theorem unionMerge_eq_kr (baseGames E : List Row) (t : String) :
    unionMerge baseGames E t
      = (jsSetOfList (JMap.keys (inBaseMap baseGames) ++ JMap.keys (byNsuidMap E))).map
          (fun id => mergeRow (JMap.get? (inBaseMap baseGames) id)
            (JMap.get? (byNsuidMap E) id) t) := rfl

theorem unionMerge_S_ne_kr (baseGames E : List Row) (id : String)
    (h : id ∈ jsSetOfList (JMap.keys (inBaseMap baseGames) ++ JMap.keys (byNsuidMap E))) :
    id ≠ "" := by
  rw [jsSetOfList_mem] at h
  rcases List.mem_append.mp h with h' | h'
  · exact keys_keyBy_ne idOf baseGames id h'
  · exact keys_keyBy_ne idOf E id h'

set_option maxHeartbeats 4000000 in
theorem idOf_mergeRow_kr (b? p? : Option Row) (t : String) (id : String)
    (hb : ∀ b ∈ b?, cleanIds b ∧ idOf b = id)
    (hp : ∀ p ∈ p?, cleanIds p ∧ idOf p = id)
    (hor : b?.isSome ∨ p?.isSome) (hid : id ≠ "") :
    idOf (mergeRow b? p? t) = id := by
  cases b? with
  | none =>
    cases p? with
    | none => simp at hor
    | some p =>
      obtain ⟨⟨c1, c2, c3⟩, hidp⟩ := hp p rfl
      have e1 : p.nsuid_kr.trimNE = p.nsuid_kr.truthy := JStr.clean_trimNE_eq_truthy _ c1
      have e2 : p.nsuid.trimNE = p.nsuid.truthy := JStr.clean_trimNE_eq_truthy _ c2
      have e3 : p.nsuid_txt.trimNE = p.nsuid_txt.truthy := JStr.clean_trimNE_eq_truthy _ c3
      replace hidp : (p.nsuid_kr.jsOr (p.nsuid.jsOr p.nsuid_txt)).coerce = id := hidp
      show ((pick JStr.undef (pick p.nsuid_kr (JStr.undef.jsOr (JStr.undef.jsOr
          (p.nsuid.jsOr p.nsuid_txt))))).jsOr (p.nsuid.jsOr p.nsuid_txt)).coerce = id
      by_cases h1 : p.nsuid_kr.truthy <;> by_cases h2 : p.nsuid.truthy <;>
        by_cases h3 : p.nsuid_txt.truthy <;>
        simp_all [JStr.jsOr_of_truthy, JStr.jsOr_of_falsy, pick_of_left, pick_of_right,
          pick_of_neither, HK.undef_truthy, HK.undef_trimNE, HK.coerce_of_falsy]
  | some b =>
    obtain ⟨⟨c1, c2, c3⟩, hidb⟩ := hb b rfl
    have e1 : b.nsuid_kr.trimNE = b.nsuid_kr.truthy := JStr.clean_trimNE_eq_truthy _ c1
    have e2 : b.nsuid.trimNE = b.nsuid.truthy := JStr.clean_trimNE_eq_truthy _ c2
    have e3 : b.nsuid_txt.trimNE = b.nsuid_txt.truthy := JStr.clean_trimNE_eq_truthy _ c3
    replace hidb : (b.nsuid_kr.jsOr (b.nsuid.jsOr b.nsuid_txt)).coerce = id := hidb
    cases p? with
    | none =>
      show ((pick b.nsuid_kr (pick JStr.undef (b.nsuid.jsOr (b.nsuid_txt.jsOr
          (JStr.undef.jsOr JStr.undef))))).jsOr (JStr.undef.jsOr JStr.undef)).coerce = id
      by_cases h1 : b.nsuid_kr.truthy <;> by_cases h2 : b.nsuid.truthy <;>
        by_cases h3 : b.nsuid_txt.truthy <;>
        simp_all [JStr.jsOr_of_truthy, JStr.jsOr_of_falsy, pick_of_left, pick_of_right,
          pick_of_neither, HK.undef_truthy, HK.undef_trimNE, HK.coerce_of_falsy]
    | some p =>
      obtain ⟨⟨d1, d2, d3⟩, hidp⟩ := hp p rfl
      have f1 : p.nsuid_kr.trimNE = p.nsuid_kr.truthy := JStr.clean_trimNE_eq_truthy _ d1
      have f2 : p.nsuid.trimNE = p.nsuid.truthy := JStr.clean_trimNE_eq_truthy _ d2
      have f3 : p.nsuid_txt.trimNE = p.nsuid_txt.truthy := JStr.clean_trimNE_eq_truthy _ d3
      replace hidp : (p.nsuid_kr.jsOr (p.nsuid.jsOr p.nsuid_txt)).coerce = id := hidp
      show ((pick b.nsuid_kr (pick p.nsuid_kr (b.nsuid.jsOr (b.nsuid_txt.jsOr
          (p.nsuid.jsOr p.nsuid_txt))))).jsOr (p.nsuid.jsOr p.nsuid_txt)).coerce = id
      by_cases h1 : b.nsuid_kr.truthy <;> by_cases h2 : b.nsuid.truthy <;>
        by_cases h3 : b.nsuid_txt.truthy <;> by_cases g1 : p.nsuid_kr.truthy <;>
        by_cases g2 : p.nsuid.truthy <;> by_cases g3 : p.nsuid_txt.truthy <;>
        simp_all [JStr.jsOr_of_truthy, JStr.jsOr_of_falsy, pick_of_left, pick_of_right,
          pick_of_neither, HK.undef_truthy, HK.undef_trimNE, HK.coerce_of_falsy]

theorem unionMerge_row_id_kr (baseGames E : List Row) (t : String)
    (hbase : ∀ g ∈ baseGames, cleanIds g) (hE : ∀ g ∈ E, cleanIds g) (id : String)
    (h : id ∈ jsSetOfList (JMap.keys (inBaseMap baseGames) ++ JMap.keys (byNsuidMap E))) :
    idOf (mergeRow (JMap.get? (inBaseMap baseGames) id) (JMap.get? (byNsuidMap E) id) t)
      = id := by
  have hid : id ≠ "" := unionMerge_S_ne_kr baseGames E id h
  refine idOf_mergeRow_kr _ _ t id ?_ ?_ ?_ hid
  · intro b hbm
    obtain ⟨hf, _, hmem⟩ := keyBy_get?_sound idOf baseGames id b hbm
    exact ⟨hbase b hmem, hf⟩
  · intro p hpm
    obtain ⟨hf, _, hmem⟩ := keyBy_get?_sound idOf E id p hpm
    exact ⟨hE p hmem, hf⟩
  · rw [jsSetOfList_mem] at h
    rcases List.mem_append.mp h with h' | h'
    · left
      rw [JMap.mem_keys_iff_has, JMap.has_eq_isSome_get?] at h'
      exact h'
    · right
      rw [JMap.mem_keys_iff_has, JMap.has_eq_isSome_get?] at h'
      exact h'

theorem unionMerge_map_idOf_kr (baseGames E : List Row) (t : String)
    (hbase : ∀ g ∈ baseGames, cleanIds g) (hE : ∀ g ∈ E, cleanIds g) :
    (unionMerge baseGames E t).map idOf
      = jsSetOfList (JMap.keys (inBaseMap baseGames) ++ JMap.keys (byNsuidMap E)) := by
  rw [unionMerge_eq_kr, List.map_map]
  refine Eq.trans (List.map_congr_left ?_) (List.map_id _)
  intro id h
  exact unionMerge_row_id_kr baseGames E t hbase hE id h

theorem idOf_applyRes (row : Row) (res : FetchRes) (now : String) :
    idOf (applyRes row res now) = idOf row := by
  cases res <;> simp only [applyRes] <;> (repeat' split) <;> rfl

theorem masterIds_map_of_id_preserving_kr (l : List Row) (φ : Row → Row)
    (h : ∀ g, idOf (φ g) = idOf g) : masterIds (l.map φ) = masterIds l := by
  unfold masterIds
  rw [List.map_map]
  have he : List.map (idOf ∘ φ) l = List.map idOf l :=
    List.map_congr_left (fun g _ => h g)
  rw [he]

theorem masterIds_unionMerge_superset_kr (baseGames E : List Row) (t : String)
    (hbase : ∀ g ∈ baseGames, cleanIds g) (hE : ∀ g ∈ E, cleanIds g) :
    masterIds E ⊆ masterIds (unionMerge baseGames E t) := by
  intro id hid
  unfold masterIds at hid ⊢
  rw [List.mem_filter] at hid ⊢
  obtain ⟨hmem, hne⟩ := hid
  rcases List.mem_map.mp hmem with ⟨g, hg, rfl⟩
  have hne' : idOf g ≠ "" := by simpa using hne
  have hhas : JMap.has (byNsuidMap E) (idOf g) = true :=
    keyBy_has_of_mem idOf E g hg hne'
  have hkeys : idOf g ∈ JMap.keys (byNsuidMap E) :=
    (JMap.mem_keys_iff_has _ _).mpr hhas
  refine ⟨?_, hne⟩
  rw [unionMerge_map_idOf_kr baseGames E t hbase hE]
  rw [jsSetOfList_mem]
  exact List.mem_append.mpr (Or.inr hkeys)

theorem masterIds_run_superset_kr (baseGames E : List Row) (oracle : String → FetchRes)
    (t : String)
    (hbase : ∀ g ∈ baseGames, cleanIds g) (hE : ∀ g ∈ E, cleanIds g) :
    masterIds E ⊆ masterIds (run baseGames E oracle t) := by
  show masterIds E ⊆ masterIds ((unionMerge baseGames E t).map _)
  rw [masterIds_map_of_id_preserving_kr]
  · exact masterIds_unionMerge_superset_kr baseGames E t hbase hE
  · intro g
    by_cases h1 : toProcessPred g = true
    · rw [if_pos h1]
      exact idOf_applyRes g _ t
    · rw [if_neg h1]

end KR

namespace EU

theorem unionMerge_eq_eu (fetched existing : List Row) (t : String) :
    unionMerge fetched existing t
      = (jsSetOfList (JMap.keys (byIdMap fetched) ++ JMap.keys (byIdMap existing))).map
          (fun id => mergeRow (JMap.get? (byIdMap fetched) id)
            (JMap.get? (byIdMap existing) id) t) := rfl

theorem unionMerge_S_ne_eu (fetched existing : List Row) (id : String)
    (h : id ∈ jsSetOfList (JMap.keys (byIdMap fetched) ++ JMap.keys (byIdMap existing))) :
    id ≠ "" := by
  rw [jsSetOfList_mem] at h
  rcases List.mem_append.mp h with h' | h'
  · exact keys_keyBy_ne idOf fetched id h'
  · exact keys_keyBy_ne idOf existing id h'

theorem idOf_mergeRow_eu (b? p? : Option Row) (t : String) (id : String)
    (hb : ∀ b ∈ b?, cleanIds b ∧ idOf b = id)
    (hp : ∀ p ∈ p?, cleanIds p ∧ idOf p = id)
    (hor : b?.isSome ∨ p?.isSome) (hid : id ≠ "") :
    idOf (mergeRow b? p? t) = id := by
  cases b? with
  | none =>
    cases p? with
    | none => simp at hor
    | some p =>
      obtain ⟨c1, hidp⟩ := hp p rfl
      have e1 : p.nsuid_eu.trimNE = p.nsuid_eu.truthy := JStr.clean_trimNE_eq_truthy _ c1
      replace hidp : p.nsuid_eu.coerce = id := hidp
      show (pick JStr.undef p.nsuid_eu).coerce = id
      by_cases h1 : p.nsuid_eu.truthy <;>
        simp_all [pick_of_left, pick_of_right, pick_of_neither,
          HK.undef_truthy, HK.undef_trimNE, HK.coerce_of_falsy]
  | some b =>
    obtain ⟨c1, hidb⟩ := hb b rfl
    have e1 : b.nsuid_eu.trimNE = b.nsuid_eu.truthy := JStr.clean_trimNE_eq_truthy _ c1
    replace hidb : b.nsuid_eu.coerce = id := hidb
    cases p? with
    | none =>
      show (pick b.nsuid_eu JStr.undef).coerce = id
      by_cases h1 : b.nsuid_eu.truthy <;>
        simp_all [pick_of_left, pick_of_right, pick_of_neither,
          HK.undef_truthy, HK.undef_trimNE, HK.coerce_of_falsy]
    | some p =>
      obtain ⟨d1, hidp⟩ := hp p rfl
      have f1 : p.nsuid_eu.trimNE = p.nsuid_eu.truthy := JStr.clean_trimNE_eq_truthy _ d1
      replace hidp : p.nsuid_eu.coerce = id := hidp
      show (pick b.nsuid_eu p.nsuid_eu).coerce = id
      by_cases h1 : b.nsuid_eu.truthy <;> by_cases h2 : p.nsuid_eu.truthy <;>
        simp_all [pick_of_left, pick_of_right, pick_of_neither,
          HK.undef_truthy, HK.undef_trimNE, HK.coerce_of_falsy]

theorem unionMerge_row_id_eu (fetched existing : List Row) (t : String)
    (hf : ∀ g ∈ fetched, cleanIds g) (hE : ∀ g ∈ existing, cleanIds g) (id : String)
    (h : id ∈ jsSetOfList (JMap.keys (byIdMap fetched) ++ JMap.keys (byIdMap existing))) :
    idOf (mergeRow (JMap.get? (byIdMap fetched) id) (JMap.get? (byIdMap existing) id) t)
      = id := by
  have hid : id ≠ "" := unionMerge_S_ne_eu fetched existing id h
  refine idOf_mergeRow_eu _ _ t id ?_ ?_ ?_ hid
  · intro b hbm
    obtain ⟨hfk, _, hmem⟩ := keyBy_get?_sound idOf fetched id b hbm
    exact ⟨hf b hmem, hfk⟩
  · intro p hpm
    obtain ⟨hfk, _, hmem⟩ := keyBy_get?_sound idOf existing id p hpm
    exact ⟨hE p hmem, hfk⟩
  · rw [jsSetOfList_mem] at h
    rcases List.mem_append.mp h with h' | h'
    · left
      rw [JMap.mem_keys_iff_has, JMap.has_eq_isSome_get?] at h'
      exact h'
    · right
      rw [JMap.mem_keys_iff_has, JMap.has_eq_isSome_get?] at h'
      exact h'

theorem unionMerge_map_idOf_eu (fetched existing : List Row) (t : String)
    (hf : ∀ g ∈ fetched, cleanIds g) (hE : ∀ g ∈ existing, cleanIds g) :
    (unionMerge fetched existing t).map idOf
      = jsSetOfList (JMap.keys (byIdMap fetched) ++ JMap.keys (byIdMap existing)) := by
  rw [unionMerge_eq_eu, List.map_map]
  refine Eq.trans (List.map_congr_left ?_) (List.map_id _)
  intro id h
  exact unionMerge_row_id_eu fetched existing t hf hE id h

theorem masterIds_unionMerge_superset_eu (fetched existing : List Row) (t : String)
    (hf : ∀ g ∈ fetched, cleanIds g) (hE : ∀ g ∈ existing, cleanIds g) :
    masterIds existing ⊆ masterIds (unionMerge fetched existing t) := by
  intro id hid
  unfold masterIds at hid ⊢
  rw [List.mem_filter] at hid ⊢
  obtain ⟨hmem, hne⟩ := hid
  rcases List.mem_map.mp hmem with ⟨g, hg, rfl⟩
  have hne' : idOf g ≠ "" := by simpa using hne
  have hhas : JMap.has (byIdMap existing) (idOf g) = true :=
    keyBy_has_of_mem idOf existing g hg hne'
  have hkeys : idOf g ∈ JMap.keys (byIdMap existing) :=
    (JMap.mem_keys_iff_has _ _).mpr hhas
  refine ⟨?_, hne⟩
  rw [unionMerge_map_idOf_eu fetched existing t hf hE]
  rw [jsSetOfList_mem]
  exact List.mem_append.mpr (Or.inr hkeys)

end EU

/-- C4: append-only master. In each engine, every identity present in the prior
persisted master is also present in the master written by a run — for any base
(or fetched) view — because the union merge iterates over the union of identity
keys and the fetch passes never change identity fields. (Identity fields are
assumed whitespace-clean, as every row the scrapers and the engines produce is.) -/
theorem c4_append_only_master
    (hkBase hkMaster : List HK.Row) (hkOracle : String → HK.CodeResult)
    (hkPlatOracle : String → JStr)
    (krBase krMaster : List KR.Row) (krOracle : String → KR.FetchRes)
    (euFetched euMaster : List EU.Row) (t : String)
    (h1 : ∀ g ∈ hkBase, HK.cleanIds g) (h2 : ∀ g ∈ hkMaster, HK.cleanIds g)
    (h3 : ∀ g ∈ krBase, KR.cleanIds g) (h4 : ∀ g ∈ krMaster, KR.cleanIds g)
    (h5 : ∀ g ∈ euFetched, EU.cleanIds g) (h6 : ∀ g ∈ euMaster, EU.cleanIds g) :
    HK.masterIds hkMaster
      ⊆ HK.masterIds (HK.run hkBase hkMaster hkOracle hkPlatOracle t) ∧
    KR.masterIds krMaster ⊆ KR.masterIds (KR.run krBase krMaster krOracle t) ∧
    EU.masterIds euMaster ⊆ EU.masterIds (EU.unionMerge euFetched euMaster t) :=
  ⟨HK.masterIds_run_superset hkBase hkMaster hkOracle hkPlatOracle t h1 h2,
    KR.masterIds_run_superset_kr krBase krMaster krOracle t h3 h4,
    EU.masterIds_unionMerge_superset_eu euFetched euMaster t h5 h6⟩

/-- C4 witness: the append-only theorem at concrete one-row masters. -/
theorem c4_witness :
    (∀ g ∈ [w4_hk_base], HK.cleanIds g) ∧ (∀ g ∈ [w4_hk_prior], HK.cleanIds g) ∧
    (∀ g ∈ [w4_kr_prior], KR.cleanIds g) ∧ (∀ g ∈ [w4_eu_prior], EU.cleanIds g) ∧
    (HK.masterIds [w4_hk_prior]
        ⊆ HK.masterIds (HK.run [w4_hk_base] [w4_hk_prior] (fun _ => {})
            (fun _ => .null) "2025-10-01T00:00:00.000Z") ∧
      KR.masterIds [w4_kr_prior] ⊆ KR.masterIds (KR.run [] [w4_kr_prior]
          (fun _ => .ERROR) "2025-10-01T00:00:00.000Z") ∧
      EU.masterIds [w4_eu_prior] ⊆ EU.masterIds (EU.unionMerge [] [w4_eu_prior]
          "2025-10-01T00:00:00.000Z")) :=
  ⟨by decide, by decide, by decide, by decide,
    c4_append_only_master [w4_hk_base] [w4_hk_prior] (fun _ => {}) (fun _ => .null)
      [] [w4_kr_prior] (fun _ => .ERROR) [] [w4_eu_prior] "2025-10-01T00:00:00.000Z"
      (by decide) (by decide) (by decide) (by decide) (by decide) (by decide)⟩

namespace ME

theorem region_contains_iff (l : List Region) (r : Region) : l.contains r = true ↔ r ∈ l := by
  simp [List.contains, List.elem_iff]

theorem ar_setNsuidField (it : Item) (r : Region) (v : JStr) :
    (setNsuidField it r v).__activeRegions = it.__activeRegions := by
  cases r <;> rfl

theorem ar_setPcField (it : Item) (r : Region) (v : JStr) :
    (setPcField it r v).__activeRegions = it.__activeRegions := by
  cases r <;> rfl

theorem ar_setSlField (it : Item) (r : Region) (v : JStr) :
    (setSlField it r v).__activeRegions = it.__activeRegions := by
  cases r <;> rfl

theorem ar_setImgSqField (it : Item) (r : Region) (v : JStr) :
    (setImgSqField it r v).__activeRegions = it.__activeRegions := by
  cases r <;> rfl

theorem nsuid_setNsuidField_same (it : Item) (r : Region) (v : JStr) :
    nsuidField (setNsuidField it r v) r = v := by
  cases r <;> rfl

theorem nsuid_setNsuidField_ne (it : Item) (r r' : Region) (v : JStr) (h : r ≠ r') :
    nsuidField (setNsuidField it r' v) r = nsuidField it r := by
  cases r <;> cases r' <;> first | rfl | exact absurd rfl h

theorem nsuid_setPcField (it : Item) (r r' : Region) (v : JStr) :
    nsuidField (setPcField it r' v) r = nsuidField it r := by
  cases r <;> cases r' <;> rfl

theorem nsuid_setSlField (it : Item) (r r' : Region) (v : JStr) :
    nsuidField (setSlField it r' v) r = nsuidField it r := by
  cases r <;> cases r' <;> rfl

theorem nsuid_setImgSqField (it : Item) (r r' : Region) (v : JStr) :
    nsuidField (setImgSqField it r' v) r = nsuidField it r := by
  cases r <;> cases r' <;> rfl

theorem ar_appendStepNsuid (base : Item) (r : Region) (mi : Item) :
    (appendStepNsuid base r mi).__activeRegions = base.__activeRegions := by
  simp only [appendStepNsuid]
  (repeat' split) <;> first | rfl | exact ar_setNsuidField _ _ _

theorem ar_appendStepPc (b1 : Item) (r : Region) (mi : Item) :
    (appendStepPc b1 r mi).__activeRegions = b1.__activeRegions := by
  simp only [appendStepPc]
  (repeat' split) <;> first | rfl | exact ar_setPcField _ _ _

theorem ar_appendStepSl (b2 : Item) (r : Region) (mi : Item) :
    (appendStepSl b2 r mi).__activeRegions = b2.__activeRegions := by
  simp only [appendStepSl]
  (repeat' split) <;> first | rfl | exact ar_setSlField _ _ _

theorem ar_appendStepPlatform (b3 : Item) (mi : Item) :
    (appendStepPlatform b3 mi).__activeRegions = b3.__activeRegions := by
  simp only [appendStepPlatform]
  (repeat' split) <;> rfl

theorem ar_appendStepImg (b4 : Item) (r : Region) (mi : Item) :
    (appendStepImg b4 r mi).__activeRegions = b4.__activeRegions := by
  simp only [appendStepImg]
  (repeat' split) <;> first | rfl | exact ar_setImgSqField _ _ _

theorem ar_appendCore (base : Item) (r : Region) (mi : Item) :
    (appendCore base r mi).__activeRegions = base.__activeRegions := by
  unfold appendCore
  rw [ar_appendStepImg, ar_appendStepPlatform, ar_appendStepSl, ar_appendStepPc,
    ar_appendStepNsuid]

theorem ar_appendRegionFields (base : Item) (r : Region) (mi : Item) :
    (appendRegionFields base r mi).__activeRegions
      = if mi.active_in_base = true
        then (if base.__activeRegions.contains r then base.__activeRegions
              else base.__activeRegions ++ [r])
        else base.__activeRegions := by
  unfold appendRegionFields
  by_cases h : mi.active_in_base = true
  · rw [if_pos h, if_pos h]
    show (if (appendCore base r mi).__activeRegions.contains r = true
        then (appendCore base r mi).__activeRegions
        else (appendCore base r mi).__activeRegions ++ [r]) = _
    rw [ar_appendCore]
  · rw [if_neg h, if_neg h]
    exact ar_appendCore base r mi

theorem nsuid_appendStepPlatform (b3 : Item) (r : Region) (mi : Item) :
    nsuidField (appendStepPlatform b3 mi) r = nsuidField b3 r := by
  simp only [appendStepPlatform]
  (repeat' split) <;> cases r <;> rfl

theorem nsuid_appendCore_ne (base : Item) (r rc : Region) (mi : Item) (h : rc ≠ r) :
    nsuidField (appendCore base r mi) rc = nsuidField base rc := by
  simp only [appendCore, appendStepImg, appendStepSl, appendStepPc, appendStepNsuid]
  (repeat' split) <;>
    simp only [nsuid_setImgSqField, nsuid_appendStepPlatform, nsuid_setSlField,
      nsuid_setPcField, nsuid_setNsuidField_ne _ _ _ _ h]

theorem nsuid_activify (it : Item) (rs : List Region) (rc : Region) :
    nsuidField { it with active_in_base := true, __activeRegions := rs } rc
      = nsuidField it rc := by
  cases rc <;> rfl

theorem nsuid_appendRegionFields_ne (base : Item) (r rc : Region) (mi : Item)
    (h : rc ≠ r) :
    nsuidField (appendRegionFields base r mi) rc = nsuidField base rc := by
  unfold appendRegionFields
  split
  · exact (nsuid_activify _ _ rc).trans (nsuid_appendCore_ne base r rc mi h)
  · exact nsuid_appendCore_ne base r rc mi h

theorem ar_pruneStep (it : Item) (rc' : Region) :
    (if nsuidField it rc' ≠ JStr.undef ∧ ¬it.__activeRegions.contains rc'
        then setNsuidField it rc' JStr.undef else it).__activeRegions
      = it.__activeRegions := by
  split
  · exact ar_setNsuidField _ _ _
  · rfl

theorem nsuid_pruneStep_ne (it : Item) (rc rc' : Region) (h : rc ≠ rc') :
    nsuidField (if nsuidField it rc' ≠ JStr.undef ∧ ¬it.__activeRegions.contains rc'
        then setNsuidField it rc' JStr.undef else it) rc
      = nsuidField it rc := by
  split
  · exact nsuid_setNsuidField_ne _ _ _ _ h
  · rfl

theorem nsuid_pruneStep_same (it : Item) (rc : Region) :
    nsuidField (if nsuidField it rc ≠ JStr.undef ∧ ¬it.__activeRegions.contains rc
        then setNsuidField it rc JStr.undef else it) rc
      = (if it.__activeRegions.contains rc = true then nsuidField it rc
          else JStr.undef) := by
  by_cases hc : it.__activeRegions.contains rc = true
  · rw [if_neg (fun h => h.2 hc), if_pos hc]
  · rw [if_neg hc]
    by_cases hu : nsuidField it rc = JStr.undef
    · rw [if_neg (by simp [hu]), hu]
    · rw [if_pos ⟨hu, by simpa using hc⟩]
      exact nsuid_setNsuidField_same _ _ _

theorem prune_fold_notmem (rcs : List Region) :
    ∀ (it : Item) (rc : Region), rc ∉ rcs →
      nsuidField (rcs.foldl (fun it rc =>
        if nsuidField it rc ≠ JStr.undef ∧ ¬it.__activeRegions.contains rc
        then setNsuidField it rc JStr.undef else it) it) rc = nsuidField it rc := by
  induction rcs with
  | nil => intro it rc _; rfl
  | cons r t ih =>
    intro it rc hm
    rw [List.foldl_cons]
    rw [ih _ rc (fun h => hm (by simp [h]))]
    exact nsuid_pruneStep_ne it rc r (fun h => hm (by simp [h]))

theorem prune_fold_ar (rcs : List Region) :
    ∀ (it : Item),
      (rcs.foldl (fun it rc =>
        if nsuidField it rc ≠ JStr.undef ∧ ¬it.__activeRegions.contains rc
        then setNsuidField it rc JStr.undef else it) it).__activeRegions
      = it.__activeRegions := by
  induction rcs with
  | nil => intro it; rfl
  | cons r t ih =>
    intro it
    rw [List.foldl_cons, ih _, ar_pruneStep]

theorem prune_fold_nsuid (rcs : List Region) :
    ∀ (it : Item) (rc : Region), rc ∈ rcs → rcs.Nodup →
      nsuidField (rcs.foldl (fun it rc =>
        if nsuidField it rc ≠ JStr.undef ∧ ¬it.__activeRegions.contains rc
        then setNsuidField it rc JStr.undef else it) it) rc
      = (if it.__activeRegions.contains rc = true then nsuidField it rc
          else JStr.undef) := by
  induction rcs with
  | nil => intro it rc hm _; simp at hm
  | cons r t ih =>
    intro it rc hm hnd
    rw [List.foldl_cons]
    rcases List.mem_cons.mp hm with rfl | hm'
    · rw [prune_fold_notmem t _ rc (List.nodup_cons.mp hnd).1]
      exact nsuid_pruneStep_same it rc
    · have hrr : rc ≠ r := fun h => (List.nodup_cons.mp hnd).1 (h ▸ hm')
      rw [ih _ rc hm' (List.nodup_cons.mp hnd).2, ar_pruneStep,
        nsuid_pruneStep_ne it rc r hrr]

theorem matchFold_spec (idxOf : Region → RegionIdx) (strictHit : Bool)
    (rs : List Region) :
    ∀ acc : Item × List (Region × Option (Item × String)),
      ∃ newRes,
        (rs.foldl (fun acc r =>
            let res := tryMatch (idxOf r) acc.1 strictHit
            match res with
            | some (mi, _rule) => (appendRegionFields acc.1 r mi, acc.2 ++ [(r, res)])
            | none => (acc.1, acc.2 ++ [(r, none)])) acc).2
          = acc.2 ++ newRes ∧
        ∀ rc : Region,
          ((rs.foldl (fun acc r =>
              let res := tryMatch (idxOf r) acc.1 strictHit
              match res with
              | some (mi, _rule) => (appendRegionFields acc.1 r mi, acc.2 ++ [(r, res)])
              | none => (acc.1, acc.2 ++ [(r, none)])) acc).1.__activeRegions.contains rc
            = true
          ↔ acc.1.__activeRegions.contains rc = true ∨
              rc ∈ newRes.filterMap (fun p =>
                match p.2 with
                | some (mi, _) => if mi.active_in_base then some p.1 else none
                | none => none)) := by
  induction rs with
  | nil =>
    intro acc
    exact ⟨[], by simp, fun rc => by simp⟩
  | cons r t ih =>
    intro acc
    rw [List.foldl_cons]
    cases hres : tryMatch (idxOf r) acc.1 strictHit with
    | none =>
      simp only [hres]
      obtain ⟨newRes, h2, hiff⟩ := ih (acc.1, acc.2 ++ [(r, none)])
      refine ⟨(r, none) :: newRes, ?_, ?_⟩
      · rw [h2]; simp
      · intro rc
        rw [hiff rc]
        simp
    | some pr =>
      obtain ⟨mi, rule⟩ := pr
      simp only [hres]
      obtain ⟨newRes, h2, hiff⟩ := ih
        (appendRegionFields acc.1 r mi, acc.2 ++ [(r, some (mi, rule))])
      refine ⟨(r, some (mi, rule)) :: newRes, ?_, ?_⟩
      · rw [h2]; simp
      · intro rc
        rw [hiff rc]
        show (appendRegionFields acc.1 r mi).__activeRegions.contains rc = true ∨ _ ↔ _
        rw [ar_appendRegionFields]
        by_cases ha : mi.active_in_base = true
        · rw [if_pos ha]
          simp only [List.filterMap_cons, ha, if_true]
          rw [List.mem_cons]
          constructor
          · rintro (h | h)
            · by_cases hcr : acc.1.__activeRegions.contains r = true
              · rw [if_pos hcr] at h
                exact Or.inl h
              · rw [if_neg hcr] at h
                rw [region_contains_iff] at h
                rcases List.mem_append.mp h with h' | h'
                · exact Or.inl ((region_contains_iff _ _).mpr h')
                · rcases List.mem_singleton.mp h' with rfl
                  exact Or.inr (Or.inl rfl)
            · exact Or.inr (Or.inr h)
          · rintro (h | h | h)
            · left
              by_cases hcr : acc.1.__activeRegions.contains r = true
              · rw [if_pos hcr]; exact h
              · rw [if_neg hcr]
                rw [region_contains_iff] at h ⊢
                exact List.mem_append.mpr (Or.inl h)
            · left
              rcases h with rfl
              by_cases hcr : acc.1.__activeRegions.contains rc = true
              · rw [if_pos hcr]; exact hcr
              · rw [if_neg hcr]
                rw [region_contains_iff]
                exact List.mem_append.mpr (Or.inr (by simp))
            · exact Or.inr h
        · rw [if_neg ha]
          simp only [List.filterMap_cons, ha, if_false]
          simp [ha]

theorem nsuid_clearAR (it : Item) (l : List Region) (rc : Region) :
    nsuidField { it with __activeRegions := l } rc = nsuidField it rc := by
  cases rc <;> rfl

theorem nsuid_ensureUrlKey (it : Item) (rc : Region) :
    nsuidField (ensureUrlKey it) rc = nsuidField it rc := by
  simp only [ensureUrlKey]
  (repeat' split) <;> cases rc <;> rfl

end ME

/-- C3 (amended): for every merged record produced from a US canonical row, a
regional identifier `nsuid_<rc>` can survive the prune loop only when `rc` is in
the row's activeRegions set — `rc = us` with the US row itself active, or `rc`
matched to a region record with `active_in_base` true. (The full if-and-only-if of
the claim fails in both directions: EU leftovers are appended verbatim without
pruning — see the counterexample — and an active matched region without a usable
id leaves `nsuid_<rc>` unset.) -/
theorem c3_prune_invariant (idxOf : ME.Region → ME.RegionIdx) (strictKeys : List String)
    (orig : ME.Item) (rc : ME.Region) (hrc : rc ∈ ME.REGION_CODES_ALL)
    (hpres : ME.nsuidField (ME.processRow idxOf strictKeys orig).1 rc ≠ JStr.undef) :
    rc ∈ ME.activeRegionsOf orig (ME.processRow idxOf strictKeys orig).2 := by
  have e1 : ME.nsuidField (ME.processRow idxOf strictKeys orig).1 rc
      = ME.nsuidField (ME.pruneNsuids (ME.matchFold idxOf
          (match ME.getUrlKey { orig with __activeRegions :=
            if orig.active_in_base then [ME.Region.us] else [] } with
          | some uk => strictKeys.contains uk
          | none => false)
          { orig with __activeRegions :=
            if orig.active_in_base then [ME.Region.us] else [] }).1) rc := by
    show ME.nsuidField { ME.ensureUrlKey (ME.pruneNsuids (ME.matchFold idxOf _ _).1)
        with __activeRegions := [] } rc = _
    rw [ME.nsuid_clearAR, ME.nsuid_ensureUrlKey]
  have e2 : ME.nsuidField (ME.pruneNsuids (ME.matchFold idxOf
        (match ME.getUrlKey { orig with __activeRegions :=
          if orig.active_in_base then [ME.Region.us] else [] } with
        | some uk => strictKeys.contains uk
        | none => false)
        { orig with __activeRegions :=
          if orig.active_in_base then [ME.Region.us] else [] }).1) rc
      = (if (ME.matchFold idxOf
            (match ME.getUrlKey { orig with __activeRegions :=
              if orig.active_in_base then [ME.Region.us] else [] } with
            | some uk => strictKeys.contains uk
            | none => false)
            { orig with __activeRegions :=
              if orig.active_in_base then [ME.Region.us] else [] }
          ).1.__activeRegions.contains rc = true
        then ME.nsuidField (ME.matchFold idxOf
            (match ME.getUrlKey { orig with __activeRegions :=
              if orig.active_in_base then [ME.Region.us] else [] } with
            | some uk => strictKeys.contains uk
            | none => false)
            { orig with __activeRegions :=
              if orig.active_in_base then [ME.Region.us] else [] }).1 rc
        else JStr.undef) :=
    ME.prune_fold_nsuid ME.REGION_CODES_ALL _ rc hrc (by decide)
  have hpres' := e1 ▸ hpres
  have hcont : (ME.matchFold idxOf
      (match ME.getUrlKey { orig with __activeRegions :=
        if orig.active_in_base then [ME.Region.us] else [] } with
      | some uk => strictKeys.contains uk
      | none => false)
      { orig with __activeRegions :=
        if orig.active_in_base then [ME.Region.us] else [] }
      ).1.__activeRegions.contains rc = true := by
    by_contra hc
    exact hpres' (e2.trans (if_neg hc))
  obtain ⟨newRes, hres, hiff⟩ := ME.matchFold_spec idxOf
    (match ME.getUrlKey { orig with __activeRegions :=
      if orig.active_in_base then [ME.Region.us] else [] } with
    | some uk => strictKeys.contains uk
    | none => false)
    ME.REGIONS
    ({ orig with __activeRegions := if orig.active_in_base then [ME.Region.us] else [] },
      [])
  have hres' : (ME.processRow idxOf strictKeys orig).2 = newRes := by
    show (ME.matchFold idxOf _ _).2 = newRes
    exact hres.trans (List.nil_append newRes)
  rcases (hiff rc).mp hcont with hseed | hmem
  · replace hseed : (if orig.active_in_base then [ME.Region.us] else []).contains rc
        = true := hseed
    by_cases hact : orig.active_in_base = true
    · rw [if_pos hact] at hseed
      rw [ME.region_contains_iff] at hseed
      rcases List.mem_singleton.mp hseed with rfl
      unfold ME.activeRegionsOf
      rw [if_pos hact]
      exact List.mem_append.mpr (Or.inl (by simp))
    · rw [if_neg hact] at hseed
      simp at hseed
  · unfold ME.activeRegionsOf
    refine List.mem_append.mpr (Or.inr ?_)
    rw [hres']
    exact hmem

/-- C3 witness: the prune invariant at a concrete active US row (identifier kept,
`us` in the active set). -/
theorem c3_witness :
    ME.Region.us ∈ ME.REGION_CODES_ALL ∧
    ME.nsuidField (ME.processRow (fun _ => {}) [] w3_orig).1 ME.Region.us ≠ JStr.undef ∧
    ME.Region.us ∈ ME.activeRegionsOf w3_orig
      (ME.processRow (fun _ => {}) [] w3_orig).2 :=
  ⟨by decide, by decide,
    c3_prune_invariant (fun _ => {}) [] w3_orig ME.Region.us (by decide) (by decide)⟩

theorem bnot_eq_true_iff (b : Bool) : ((!b) = true) ↔ b = false := by
  cases b <;> simp

theorem jstr_contains_iff (l : List JStr) (x : JStr) : l.contains x = true ↔ x ∈ l := by
  simp [List.contains, List.elem_iff]

theorem map_filter_key {α β : Type} (f : α → β) (p : β → Bool) (l : List α) :
    (l.filter (fun a => p (f a))).map f = (l.map f).filter p := by
  induction l with
  | nil => rfl
  | cons a t ih =>
    by_cases hp : p (f a) = true
    · rw [List.filter_cons, if_pos (by simpa using hp), List.map_cons, List.map_cons,
        List.filter_cons, if_pos (by simpa using hp), ih]
    · rw [List.filter_cons, if_neg (by simpa using hp), List.map_cons,
        List.filter_cons, if_neg (by simpa using hp), ih]

theorem filter_and_sublist {α : Type} (l : List α) (p q : α → Bool) :
    List.Sublist (l.filter (fun a => p a && q a)) (l.filter p) := by
  induction l with
  | nil => simp
  | cons a t ih =>
    by_cases hp : p a = true
    · by_cases hq : q a = true
      · rw [List.filter_cons, if_pos (by simp [hp, hq]), List.filter_cons,
          if_pos (by simpa using hp)]
        exact List.Sublist.cons₂ a ih
      · rw [List.filter_cons, if_neg (by simp [hp, hq]), List.filter_cons,
          if_pos (by simpa using hp)]
        exact List.Sublist.cons a ih
    · rw [List.filter_cons, if_neg (by simp [hp]), List.filter_cons,
        if_neg (by simpa using hp)]
      exact ih

namespace FetchUS

theorem save_take_us (fetched existing : List Entry) :
    (save fetched existing).take existing.length = existing := by
  show (existing ++ _).take existing.length = existing
  exact List.take_left existing _

theorem save_drop_mem_us (fetched existing : List Entry) (e : Entry)
    (h : e ∈ (save fetched existing).drop existing.length) :
    e ∈ fetched ∧ (savedKeys existing).contains e.nsuid_us = false := by
  have hd : (save fetched existing).drop existing.length
      = fetched.filter (fun e => !(existing.map (·.nsuid_us)).contains e.nsuid_us) := by
    show (existing ++ _).drop existing.length = _
    exact List.drop_left existing _
  rw [hd] at h
  obtain ⟨hmem, hp⟩ := List.mem_filter.mp h
  exact ⟨hmem, (bnot_eq_true_iff _).mp hp⟩

theorem save_nodup_us (fetched existing : List Entry)
    (hE : (savedKeys existing).Nodup) (hF : (savedKeys fetched).Nodup) :
    (savedKeys (save fetched existing)).Nodup := by
  show (savedKeys (existing ++
    fetched.filter (fun e => !(existing.map (·.nsuid_us)).contains e.nsuid_us))).Nodup
  unfold savedKeys at hE hF ⊢
  rw [List.map_append, List.nodup_append]
  refine ⟨hE, ?_, ?_⟩
  · exact hF.sublist (List.Sublist.map _ (List.filter_sublist _))
  · intro k hk1 hk2
    rcases List.mem_map.mp hk2 with ⟨e, he, rfl⟩
    obtain ⟨_, hp⟩ := List.mem_filter.mp he
    have hcf : (existing.map (·.nsuid_us)).contains e.nsuid_us = false :=
      (bnot_eq_true_iff _).mp hp
    have hct : (existing.map (·.nsuid_us)).contains e.nsuid_us = true :=
      (jstr_contains_iff _ _).mpr hk1
    rw [hcf] at hct
    exact Bool.false_ne_true hct

end FetchUS

namespace FetchHK

theorem save_take_hk (fetched existing : List Entry) :
    (save fetched existing).take existing.length = existing := by
  show (existing ++ _).take existing.length = existing
  exact List.take_left existing _

theorem save_drop_mem_hk (fetched existing : List Entry) (e : Entry)
    (h : e ∈ (save fetched existing).drop existing.length) :
    e ∈ fetched ∧ e.nsuid_hk.truthy = true ∧
      (savedKeys existing).contains e.nsuid_hk = false := by
  have hd : (save fetched existing).drop existing.length
      = fetched.filter (fun e => e.nsuid_hk.truthy &&
          !((existing.map (·.nsuid_hk)).filter (·.truthy)).contains e.nsuid_hk) := by
    show (existing ++ _).drop existing.length = _
    exact List.drop_left existing _
  rw [hd] at h
  obtain ⟨hmem, hp⟩ := List.mem_filter.mp h
  rw [Bool.and_eq_true] at hp
  exact ⟨hmem, hp.1, (bnot_eq_true_iff _).mp hp.2⟩

theorem save_nodup_hk (fetched existing : List Entry)
    (hE : (savedKeys existing).Nodup) (hF : (savedKeys fetched).Nodup) :
    (savedKeys (save fetched existing)).Nodup := by
  show (savedKeys (existing ++ fetched.filter (fun e => e.nsuid_hk.truthy &&
      !((existing.map (·.nsuid_hk)).filter (·.truthy)).contains e.nsuid_hk))).Nodup
  unfold savedKeys at hE hF ⊢
  rw [List.map_append, List.filter_append, List.nodup_append]
  refine ⟨hE, ?_, ?_⟩
  · refine hF.sublist ?_
    refine List.Sublist.trans (List.filter_sublist _) ?_
    rw [show (fetched.filter (fun e => e.nsuid_hk.truthy &&
        !((existing.map (·.nsuid_hk)).filter (·.truthy)).contains e.nsuid_hk)).map
          (·.nsuid_hk)
      = (fetched.map (·.nsuid_hk)).filter (fun k => k.truthy &&
          !((existing.map (·.nsuid_hk)).filter (·.truthy)).contains k) from
      map_filter_key (fun x => x.nsuid_hk)
        (fun k => k.truthy &&
          !((existing.map (fun x => x.nsuid_hk)).filter (fun x => x.truthy)).contains k)
        fetched]
    exact filter_and_sublist (fetched.map (·.nsuid_hk)) (·.truthy) _
  · intro k hk1 hk2
    rcases List.mem_filter.mp hk2 with ⟨hk2', _⟩
    rcases List.mem_map.mp hk2' with ⟨e, he, rfl⟩
    obtain ⟨_, hp⟩ := List.mem_filter.mp he
    rw [Bool.and_eq_true] at hp
    have hcf : ((existing.map (·.nsuid_hk)).filter (·.truthy)).contains e.nsuid_hk
        = false := (bnot_eq_true_iff _).mp hp.2
    have hct : ((existing.map (·.nsuid_hk)).filter (·.truthy)).contains e.nsuid_hk
        = true := (jstr_contains_iff _ _).mpr hk1
    rw [hcf] at hct
    exact Bool.false_ne_true hct

end FetchHK

/-- C10: the per-region source files are append-only and duplicate-free. For both
save steps (`fetch_us.js`, `fetch_hk.js`): the previously saved file is kept
verbatim as a prefix of the new file; an appended entry comes from today's fetch
and its identity key (for HK: its truthy `nsuid_hk`) does not already occur among
the file's saved keys; and when the existing file and the fetched batch are each
duplicate-free on identity keys (the fetchers dedupe upstream), so is the saved
result. -/
theorem c10_source_files_append_only
    (usF usE : List FetchUS.Entry) (hkF hkE : List FetchHK.Entry)
    (husE : (FetchUS.savedKeys usE).Nodup) (husF : (FetchUS.savedKeys usF).Nodup)
    (hhkE : (FetchHK.savedKeys hkE).Nodup) (hhkF : (FetchHK.savedKeys hkF).Nodup) :
    ((FetchUS.save usF usE).take usE.length = usE ∧
      (∀ e ∈ (FetchUS.save usF usE).drop usE.length,
        e ∈ usF ∧ (FetchUS.savedKeys usE).contains e.nsuid_us = false) ∧
      (FetchUS.savedKeys (FetchUS.save usF usE)).Nodup) ∧
    ((FetchHK.save hkF hkE).take hkE.length = hkE ∧
      (∀ e ∈ (FetchHK.save hkF hkE).drop hkE.length,
        e ∈ hkF ∧ e.nsuid_hk.truthy = true ∧
          (FetchHK.savedKeys hkE).contains e.nsuid_hk = false) ∧
      (FetchHK.savedKeys (FetchHK.save hkF hkE)).Nodup) :=
  ⟨⟨FetchUS.save_take_us usF usE,
      fun e he => FetchUS.save_drop_mem_us usF usE e he,
      FetchUS.save_nodup_us usF usE husE husF⟩,
    ⟨FetchHK.save_take_hk hkF hkE,
      fun e he => FetchHK.save_drop_mem_hk hkF hkE e he,
      FetchHK.save_nodup_hk hkF hkE hhkE hhkF⟩⟩

/-- C10 witness: the append-only save theorem at concrete two-entry files (one
fetched entry already saved, one new). -/
theorem c10_witness :
    (FetchUS.savedKeys w10_us_existing).Nodup ∧
    (FetchUS.savedKeys w10_us_fetched).Nodup ∧
    (FetchHK.savedKeys w10_hk_existing).Nodup ∧
    (FetchHK.savedKeys w10_hk_fetched).Nodup ∧
    (((FetchUS.save w10_us_fetched w10_us_existing).take w10_us_existing.length
        = w10_us_existing ∧
      (∀ e ∈ (FetchUS.save w10_us_fetched w10_us_existing).drop w10_us_existing.length,
        e ∈ w10_us_fetched ∧
          (FetchUS.savedKeys w10_us_existing).contains e.nsuid_us = false) ∧
      (FetchUS.savedKeys (FetchUS.save w10_us_fetched w10_us_existing)).Nodup) ∧
    ((FetchHK.save w10_hk_fetched w10_hk_existing).take w10_hk_existing.length
        = w10_hk_existing ∧
      (∀ e ∈ (FetchHK.save w10_hk_fetched w10_hk_existing).drop w10_hk_existing.length,
        e ∈ w10_hk_fetched ∧ e.nsuid_hk.truthy = true ∧
          (FetchHK.savedKeys w10_hk_existing).contains e.nsuid_hk = false) ∧
      (FetchHK.savedKeys (FetchHK.save w10_hk_fetched w10_hk_existing)).Nodup)) :=
  ⟨by decide, by decide, by decide, by decide,
    c10_source_files_append_only w10_us_fetched w10_us_existing w10_hk_fetched
      w10_hk_existing (by decide) (by decide) (by decide) (by decide)⟩
